import Mathlib

/-!
# Verification of the blocktopus deterministic pub/sub fabric

A shallow embedding of the blocktopus repository (critic/validator in
`blocktopus/algorithm/data_structures.{h,cc}`, datagram transport in
`transport.{h,cc}`) together with theorems settling the specification
claims about it.

Conventions:
* `SeqNum` (`using SeqNum = double` in the source) is modelled as `ℚ`.
  Sequence numbers are used only through order comparisons and copies in
  the code fragments embedded here, and the order of the non-NaN doubles
  embeds in the rationals, so this is order-faithful.
* Diagnostic strings built with `fmt::format` are modelled as a small
  inductive type carrying exactly the data interpolated into the format
  string (minus `strerror` text, which is a fixed table lookup).
* C++ state mutation through pointers/references becomes explicit state
  passing: a function taking `Critique*` becomes a function from the old
  critique list to the new one.
-/

namespace Blocktopus

namespace Algorithm

/-- `using SeqNum = double;` — modelled as `ℚ` (order-faithful for the
comparisons the embedded code performs). -/
abbrev SeqNum := ℚ

/-- `static constexpr SeqNum kFirstSeqNum = 0;` -/
def kFirstSeqNum : SeqNum := 0

/-- `using ClientId = uint32_t;` — the critic only copies and prints ids. -/
abbrev ClientId := ℕ

/-- `std::numeric_limits<SeqNum>::min()` for `SeqNum = double`: the smallest
positive normalised double `2⁻¹⁰²²` (NOT the most negative double).  This is
the initial value of `last_causal_point` in `Criticize(const EventList&, ...)`. -/
def numericLimitsDoubleMin : SeqNum := ⟨1, 2 ^ 1022, by positivity, Nat.coprime_one_left _⟩

/-- `Message::RxInfo`: one recipient of a message. -/
structure RxInfo where
  receipient : ClientId
  receive_seq : SeqNum
deriving DecidableEq, Repr

/-- `struct Message` from `data_structures.h`. -/
structure Message where
  publisher : ClientId
  publish_seq : SeqNum
  recipients : List RxInfo
  payload : List ℕ
deriving DecidableEq, Repr

/-- `struct PublishEvent`. -/
structure PublishEvent where
  message : Message
deriving DecidableEq, Repr

/-- `struct ReceiveEvent`. -/
structure ReceiveEvent where
  message : Message
  recipient : ClientId
deriving DecidableEq, Repr

/-- `struct SequenceEvent`. -/
structure SequenceEvent where
  seq_num : SeqNum
deriving DecidableEq, Repr

/-- `using Event = std::variant<PublishEvent, ReceiveEvent, SequenceEvent>;` -/
inductive Event where
  | publish (evt : PublishEvent)
  | receive (evt : ReceiveEvent)
  | sequence (evt : SequenceEvent)
deriving DecidableEq, Repr

/-- `using EventList = std::vector<Event>;` -/
abbrev EventList := List Event

/-- One critique entry.  The source pushes `fmt::format` strings; each
constructor carries exactly the values interpolated into the corresponding
format string in `data_structures.cc`. -/
inductive Diagnostic where
  /-- `"{}_pub_at_{} noncausal message pub_seq {} rx_seq {}"` -/
  | noncausalMessage (publisher : ClientId) (publish_seq receive_seq : SeqNum)
  /-- `"Event {}_pub_at_{} after causal sequence {}"` -/
  | eventAfterCausal (publisher : ClientId) (publish_seq last_causal_point : SeqNum)
  /-- `"Sequence point {} after causal sequence {}"` -/
  | seqPointAfterCausal (seq_num last_causal_point : SeqNum)
deriving DecidableEq, Repr

/-- `using Critique = std::vector<std::string>;` -/
abbrev Critique := List Diagnostic

/-- `void Criticize(const Message&, Critique*)`: for each recipient, push a
noncausal-message diagnostic when `receipt.receive_seq <= opus.publish_seq`.
`push_back` on the critique vector becomes appending at the end. -/
def CriticizeMessage (opus : Message) (critique : Critique) : Critique :=
  opus.recipients.foldl
    (fun c receipt =>
      if receipt.receive_seq ≤ opus.publish_seq then
        c ++ [.noncausalMessage opus.publisher opus.publish_seq receipt.receive_seq]
      else c)
    critique

/-- `void Criticize(const Event&, Critique*)`: `std::visit` dispatch; publish
and receive events criticise their message, sequence events do nothing. -/
def CriticizeEvent (opus : Event) (critique : Critique) : Critique :=
  match opus with
  | .publish evt => CriticizeMessage evt.message critique
  | .receive evt => CriticizeMessage evt.message critique
  | .sequence _ => critique

/-- One step of the second (causal-cursor) loop of
`Criticize(const EventList&, Critique*)`.  The state is the pair
`(critique so far, last_causal_point)`.  Note: the `ReceiveEvent` arm checks
every recipient of the message but never assigns `last_causal_point`. -/
def causalStep (st : Critique × SeqNum) (event : Event) : Critique × SeqNum :=
  match event with
  | .publish evt =>
      (if st.2 ≥ evt.message.publish_seq then
        st.1 ++ [.eventAfterCausal evt.message.publisher evt.message.publish_seq st.2]
      else st.1, evt.message.publish_seq)
  | .receive evt =>
      (evt.message.recipients.foldl
        (fun c rx =>
          if st.2 ≥ rx.receive_seq then
            c ++ [.eventAfterCausal evt.message.publisher evt.message.publish_seq st.2]
          else c)
        st.1, st.2)
  | .sequence evt =>
      (if st.2 ≥ evt.seq_num then
        st.1 ++ [.seqPointAfterCausal evt.seq_num st.2]
      else st.1, evt.seq_num)

/-- `void Criticize(const EventList&, Critique*)`: first the front-loaded
per-event pass, then the causal-cursor pass with `last_causal_point`
initialised to `std::numeric_limits<SeqNum>::min()`. -/
def CriticizeEventList (opus : EventList) (critique : Critique) : Critique :=
  let c1 := opus.foldl (fun c e => CriticizeEvent e c) critique
  (opus.foldl causalStep (c1, numericLimitsDoubleMin)).1

/-! ### Spec-level restatements of the critic -/

/-- The diagnostics `Criticize(const Message&, ...)` appends: one noncausal
diagnostic per recipient whose `receive_seq ≤ publish_seq`. -/
def messageDiags (opus : Message) : List Diagnostic :=
  opus.recipients.filterMap fun receipt =>
    if receipt.receive_seq ≤ opus.publish_seq then
      some (.noncausalMessage opus.publisher opus.publish_seq receipt.receive_seq)
    else none

/-- The diagnostics `Criticize(const Event&, ...)` appends. -/
def eventDiags : Event → List Diagnostic
  | .publish evt => messageDiags evt.message
  | .receive evt => messageDiags evt.message
  | .sequence _ => []

/-- Diagnostics of the front-loaded per-event pass of the `EventList` overload. -/
def pass1Diags (opus : EventList) : List Diagnostic :=
  (opus.map eventDiags).flatten

/-- Causal-cursor update of the `EventList` pass: a `PublishEvent` advances the
cursor to its `publish_seq`, a `SequenceEvent` to its `seq_num`, and a
`ReceiveEvent` leaves the cursor unchanged. -/
def cursorAfter (cursor : SeqNum) : Event → SeqNum
  | .publish evt => evt.message.publish_seq
  | .receive _ => cursor
  | .sequence evt => evt.seq_num

/-- Diagnostics the causal-cursor pass appends at a single event: appended if
and only if the event's sequence number (the `publish_seq`, each recipient's
`receive_seq`, or the `seq_num` respectively) is `≤` the running cursor. -/
def causalDiagsAt (cursor : SeqNum) : Event → List Diagnostic
  | .publish evt =>
      if evt.message.publish_seq ≤ cursor then
        [.eventAfterCausal evt.message.publisher evt.message.publish_seq cursor]
      else []
  | .receive evt =>
      evt.message.recipients.filterMap fun rx =>
        if rx.receive_seq ≤ cursor then
          some (.eventAfterCausal evt.message.publisher evt.message.publish_seq cursor)
        else none
  | .sequence evt =>
      if evt.seq_num ≤ cursor then
        [.seqPointAfterCausal evt.seq_num cursor]
      else []

/-- All diagnostics of the causal-cursor pass, with the cursor threaded by
`cursorAfter`. -/
def causalDiags (cursor : SeqNum) : EventList → List Diagnostic
  | [] => []
  | e :: rest => causalDiagsAt cursor e ++ causalDiags (cursorAfter cursor e) rest

/-- Claim C1's reading of the cursor update: after processing each event the
cursor equals that event's own sequence number — including after a
`ReceiveEvent`, whose "own sequence number" is its recipient's `receive_seq`
(the last one, which is the unique one for single-recipient messages). -/
def cursorAfterClaimed (cursor : SeqNum) : Event → SeqNum
  | .publish evt => evt.message.publish_seq
  | .receive evt => (evt.message.recipients.map RxInfo.receive_seq).getLastD cursor
  | .sequence evt => evt.seq_num

/-- The causal-cursor diagnostics as claim C1 states them: same appended
diagnostics, but the cursor advances to every event's own sequence number. -/
def causalDiagsClaimed (cursor : SeqNum) : EventList → List Diagnostic
  | [] => []
  | e :: rest => causalDiagsAt cursor e ++ causalDiagsClaimed (cursorAfterClaimed cursor e) rest

/-- `Criticize(const EventList&, ...)` as claim C1 describes it. -/
def CriticizeEventListClaimed (opus : EventList) (critique : Critique) : Critique :=
  critique ++ pass1Diags opus ++ causalDiagsClaimed numericLimitsDoubleMin opus

/-! ### Critic lemmas -/

lemma foldl_ite_append {α β : Type} (p : α → Bool) (f : α → β)
    (rs : List α) (c : List β) :
    rs.foldl (fun acc r => if p r then acc ++ [f r] else acc) c
      = c ++ rs.filterMap (fun r => if p r then some (f r) else none) := by
  induction rs generalizing c with
  | nil => simp
  | cons r rs ih =>
    by_cases h : p r <;> simp [h, ih, List.filterMap_cons]

lemma CriticizeMessage_eq (opus : Message) (critique : Critique) :
    CriticizeMessage opus critique = critique ++ messageDiags opus := by
  have h := foldl_ite_append
    (fun receipt : RxInfo => decide (receipt.receive_seq ≤ opus.publish_seq))
    (fun receipt : RxInfo =>
      Diagnostic.noncausalMessage opus.publisher opus.publish_seq receipt.receive_seq)
    opus.recipients critique
  simpa [CriticizeMessage, messageDiags] using h

lemma CriticizeEvent_eq (e : Event) (critique : Critique) :
    CriticizeEvent e critique = critique ++ eventDiags e := by
  cases e <;> simp [CriticizeEvent, eventDiags, CriticizeMessage_eq]

lemma pass1_foldl_eq (opus : EventList) (critique : Critique) :
    opus.foldl (fun c e => CriticizeEvent e c) critique = critique ++ pass1Diags opus := by
  induction opus generalizing critique with
  | nil => simp [pass1Diags]
  | cons e rest ih =>
    rw [List.foldl_cons, CriticizeEvent_eq, ih]
    simp [pass1Diags, List.append_assoc]

lemma causalStep_eq (st : Critique × SeqNum) (e : Event) :
    causalStep st e = (st.1 ++ causalDiagsAt st.2 e, cursorAfter st.2 e) := by
  cases e with
  | publish evt =>
    simp only [causalStep, causalDiagsAt, cursorAfter, ge_iff_le]
    by_cases h : evt.message.publish_seq ≤ st.2 <;> simp [h]
  | receive evt =>
    have h := foldl_ite_append
      (fun rx : RxInfo => decide (st.2 ≥ rx.receive_seq))
      (fun _ : RxInfo =>
        Diagnostic.eventAfterCausal evt.message.publisher evt.message.publish_seq st.2)
      evt.message.recipients st.1
    simp only [causalStep, causalDiagsAt, cursorAfter, ge_iff_le]
    simpa [ge_iff_le] using h
  | sequence evt =>
    simp only [causalStep, causalDiagsAt, cursorAfter, ge_iff_le]
    by_cases h : evt.seq_num ≤ st.2 <;> simp [h]

lemma causal_foldl_eq (opus : EventList) (critique : Critique) (cursor : SeqNum) :
    opus.foldl causalStep (critique, cursor)
      = (critique ++ causalDiags cursor opus,
         opus.foldl cursorAfter cursor) := by
  induction opus generalizing critique cursor with
  | nil => simp [causalDiags]
  | cons e rest ih =>
    simp only [List.foldl_cons, causalStep_eq, ih, causalDiags, List.append_assoc]

lemma CriticizeEventList_eq (opus : EventList) (critique : Critique) :
    CriticizeEventList opus critique
      = critique ++ pass1Diags opus ++ causalDiags numericLimitsDoubleMin opus := by
  simp [CriticizeEventList, pass1_foldl_eq, causal_foldl_eq, List.append_assoc]

/-- A three-event list on which the code's causal cursor and claim C1's
cursor disagree: the middle `ReceiveEvent` (sole recipient at
`receive_seq = 5`) does not advance the code's cursor past `1`, so the final
`SequenceEvent` at `3` draws no diagnostic, while under the claimed cursor
semantics it would. -/
def cursorCounterexampleList : EventList :=
  [.sequence ⟨1⟩,
   .receive ⟨⟨7, 0, [⟨2, 5⟩], []⟩, 2⟩,
   .sequence ⟨3⟩]

end Algorithm

end Blocktopus

namespace Blocktopus

namespace Algorithm

/-! ### Claims C1–C3 about the critic -/

/-- C1 (amended): `Criticize` over an `EventList` first appends the per-event
message diagnostics, then runs the causal-cursor pass appending, for every
event, a diagnostic if and only if the event's sequence number (the
`publish_seq` of a `PublishEvent`, each recipient's `receive_seq` of a
`ReceiveEvent`, the `seq_num` of a `SequenceEvent`) is `≤` the running
causal-point cursor at that event; after a `PublishEvent` the cursor equals
its `publish_seq` and after a `SequenceEvent` its `seq_num`, but a
`ReceiveEvent` leaves the cursor unchanged. -/
theorem criticize_eventList_causal_characterization
    (opus : EventList) (critique : Critique) :
    CriticizeEventList opus critique
      = critique ++ pass1Diags opus ++ causalDiags numericLimitsDoubleMin opus :=
  CriticizeEventList_eq opus critique

set_option maxRecDepth 4000 in
/-- C1 (counterexample): on `cursorCounterexampleList` the claimed semantics
— identical except that the cursor is also advanced to a `ReceiveEvent`'s own
sequence number — produces a diagnostic for the final `SequenceEvent` that the
code does not produce, so claim C1 as stated is false. -/
theorem criticize_eventList_claimed_cursor_refuted :
    CriticizeEventListClaimed cursorCounterexampleList []
      ≠ CriticizeEventList cursorCounterexampleList [] := by
  decide

/-- C2: `Criticize` on a `Message` appends one noncausal diagnostic per
recipient `r` exactly when `r.receive_seq ≤ m.publish_seq`; equivalently it
appends nothing iff every recipient's `receive_seq` is strictly greater than
`m.publish_seq`. -/
theorem criticize_message_noncausal_iff (m : Message) (critique : Critique) :
    CriticizeMessage m critique
      = critique ++ m.recipients.filterMap (fun r =>
          if r.receive_seq ≤ m.publish_seq then
            some (.noncausalMessage m.publisher m.publish_seq r.receive_seq)
          else none)
    ∧ (CriticizeMessage m critique = critique ↔
        ∀ r ∈ m.recipients, m.publish_seq < r.receive_seq) := by
  refine ⟨CriticizeMessage_eq m critique, ?_⟩
  rw [CriticizeMessage_eq]
  constructor
  · intro h
    have hnil : messageDiags m = [] := by
      have hl := congrArg List.length h
      simp at hl
      exact hl
    intro r hr
    by_contra hc
    push_neg at hc
    have : (Diagnostic.noncausalMessage m.publisher m.publish_seq r.receive_seq)
        ∈ messageDiags m := by
      simp [messageDiags, List.mem_filterMap]
      exact ⟨r, hr, hc, rfl⟩
    simp [hnil] at this
  · intro h
    have hnil : messageDiags m = [] := by
      simp only [messageDiags, List.filterMap_eq_nil_iff]
      intro r hr
      simp [not_le.mpr (h r hr)]
    simp [hnil]

/-- C3: every `Criticize` overload is append-only on the critique vector —
for every input and pre-existing critique, the original entries remain, in
order, a prefix of the result (the inputs themselves are `const` values the
functional embedding never modifies). -/
theorem criticize_append_only (m : Message) (e : Event) (l : EventList)
    (critique : Critique) :
    critique <+: CriticizeMessage m critique
    ∧ critique <+: CriticizeEvent e critique
    ∧ critique <+: CriticizeEventList l critique := by
  refine ⟨?_, ?_, ?_⟩
  · rw [CriticizeMessage_eq]; exact List.prefix_append _ _
  · rw [CriticizeEvent_eq]; exact List.prefix_append _ _
  · rw [CriticizeEventList_eq, List.append_assoc]; exact List.prefix_append _ _

/-! ### Claim C8: the distinguished minimum sequence number and the handshake -/

/-- Modelled from the spec: the server-side sequencer (absent from the
repository sources, which contain only the placeholder client API header) is
specified to reply to `Hello` by allocating a `ClientId` and answering
`HelloAck{id, kFirstSeqNum}` (§4.2); scenario S1 has the first client receive
`HelloAck{id=1, initial_seq=0.0}`. -/
structure HelloAck where
  id : ClientId
  initial_seq : SeqNum
deriving DecidableEq, Repr

/-- Modelled from the spec: the `HelloAck` the sequencer sends to the client
whose allocated id is `id` carries `kFirstSeqNum` as its initial sequence
frontier. -/
def helloAckFor (id : ClientId) : HelloAck :=
  { id := id, initial_seq := kFirstSeqNum }

/-- C8: `kFirstSeqNum = 0`, and the handshake reply of scenario S1 (the first
client, id 1) carries exactly `kFirstSeqNum = 0.0` as its `initial_seq`. -/
theorem kFirstSeqNum_eq_zero_and_initial_frontier :
    kFirstSeqNum = 0
    ∧ (helloAckFor 1).initial_seq = kFirstSeqNum
    ∧ (helloAckFor 1).id = 1 :=
  ⟨rfl, rfl, rfl⟩

end Algorithm

/-! ## The datagram transport (`transport.h` / `transport.cc`) -/

namespace Net

/-- The data interpolated into `HandleError`'s `fmt::format` string: the
`what` tag, the raw return value, and the code whose `strerror` text is
printed (`errno` when the value is exactly `-1`, the value itself otherwise). -/
structure ErrorReport where
  what : String
  maybe_error : Int
  error_to_print : Int
deriving DecidableEq, Repr

/-- `int HandleError(const std::string& what, int maybe_error)` from
`transport.cc`.  The ambient `errno` is passed explicitly; the C++ `throw`
becomes `Except.error`. -/
def HandleError (what : String) (errno : Int) (maybe_error : Int) :
    Except ErrorReport Int :=
  if maybe_error ≥ 0 then .ok maybe_error
  else .error ⟨what, maybe_error, if maybe_error = -1 then errno else maybe_error⟩

/-- C10: `HandleError` returns `v` unchanged whenever `v ≥ 0`; for `v < 0` it
never returns normally but throws, reporting `errno` in place of `v` exactly
when `v = -1`; consequently every normally-returned value is nonnegative. -/
theorem handleError_passthrough_or_throw (what : String) (errno v : Int) :
    (0 ≤ v → HandleError what errno v = .ok v)
    ∧ (v < 0 → HandleError what errno v
        = .error ⟨what, v, if v = -1 then errno else v⟩)
    ∧ (∀ r : Int, HandleError what errno v = .ok r → r = v ∧ 0 ≤ r) := by
  refine ⟨fun h => ?_, fun h => ?_, fun r hr => ?_⟩
  · simp [HandleError, h]
  · simp [HandleError, not_le.mpr h]
  · by_cases h : 0 ≤ v
    · simp [HandleError, h] at hr
      exact ⟨hr.symm, hr ▸ h⟩
    · simp [HandleError, h] at hr

/-- C10 witness: concrete instances of both behaviours of
`handleError_passthrough_or_throw`. -/
theorem handleError_passthrough_or_throw_witness :
    HandleError "recv" 11 3 = .ok 3
    ∧ HandleError "recv" 11 (-1) = .error ⟨"recv", -1, 11⟩
    ∧ HandleError "recv" 11 (-7) = .error ⟨"recv", -7, -7⟩ := by
  refine ⟨(handleError_passthrough_or_throw "recv" 11 3).1 (by norm_num), ?_, ?_⟩
  · have h := (handleError_passthrough_or_throw "recv" 11 (-1)).2.1 (by norm_num)
    simpa using h
  · have h := (handleError_passthrough_or_throw "recv" 11 (-7)).2.1 (by norm_num)
    simpa using h

/-- `Transport::kHeaderSize = sizeof(uint32_t)`. -/
def kHeaderSize : ℕ := 4

/-- `htonl(payload_size)`: the four big-endian bytes of the length header
(`size_t` truncated to `uint32`). -/
def htonl32 (n : ℕ) : List ℕ :=
  [n / 2 ^ 24 % 256, n / 2 ^ 16 % 256, n / 2 ^ 8 % 256, n % 256]

/-- `ntohl(*reinterpret_cast<uint32_t*>(data))`: host value of the first four
bytes read big-endian. -/
def ntohl32 (bs : List ℕ) : ℕ :=
  bs.getD 0 0 * 2 ^ 24 + bs.getD 1 0 * 2 ^ 16 + bs.getD 2 0 * 2 ^ 8 + bs.getD 3 0

/-- `Transport::TxBuffer`.  Bytes are `ℕ` values `< 256`; the value range is
immaterial to the claims. -/
structure TxBuffer where
  payload_size : ℕ
  data : List ℕ
  bytes_sent : ℕ
deriving DecidableEq, Repr

/-- `TxBuffer::done()`. -/
def TxBuffer.done (b : TxBuffer) : Bool :=
  b.bytes_sent == b.payload_size + kHeaderSize

/-- `Transport::RxBuffer`. -/
structure RxBuffer where
  payload_size : ℕ
  data : List ℕ
  bytes_received : ℕ
deriving DecidableEq, Repr

/-- `RxBuffer::done()`. -/
def RxBuffer.done (b : RxBuffer) : Bool :=
  b.bytes_received == b.payload_size + kHeaderSize

/-- `std::make_unique<Transport::RxBuffer>()` value-initialises every field. -/
def freshRxBuffer : RxBuffer := ⟨0, [], 0⟩

/-- The byte `buffer->data.data()[i]` reads: in-range indices come from the
vector, out-of-range indices (undefined behaviour in C++) are modelled by the
ambient memory function `oob`. -/
def txByteAt (oob : ℕ → ℕ) (b : TxBuffer) (i : ℕ) : ℕ :=
  if h : i < b.data.length then b.data.get ⟨i, h⟩ else oob i

/-- One `recv(fd, …, MSG_DONTWAIT)` observation.  `avail n` means the socket
hands over up to `n` bytes of the in-order inbound TCP stream (a result of
`0`, orderly shutdown, arises when the stream is exhausted or `n = 0`);
`wouldBlock` is a `-1` result with `errno ∈ {EWOULDBLOCK, EAGAIN}`; `fail e`
is a `-1` result with any other `errno`, which `HandleError` turns into a
thrown exception. -/
inductive RecvEv where
  | avail (n : ℕ)
  | wouldBlock
  | fail (e : Int)
deriving DecidableEq, Repr

/-- One `send(fd, …, MSG_DONTWAIT)` observation: `accept n` means the socket
accepts up to `n` of the requested bytes (`0` means the remote end
disconnected), the other two as in `RecvEv`. -/
inductive SendEv where
  | accept (n : ℕ)
  | wouldBlock
  | fail (e : Int)
deriving DecidableEq, Repr

/-- How one of the four-way branches of the nonblocking loops exited. -/
inductive FillResult where
  /-- the loop condition became false: the target byte count is reached -/
  | filled
  /-- a call would block: the `Try…` function returns `true` at once -/
  | blocked
  /-- a call returned `0`: the remote closed; the `Try…` function returns `false` -/
  | closed
  /-- `HandleError` threw -/
  | threw (e : ErrorReport)
  /-- model artifact: the event schedule ran out before the loop could exit -/
  | starved
deriving DecidableEq, Repr

/-- Log of raw socket-call results `(return value, errno)`, in call order. -/
abbrev CallLog := List (Int × Int)

/-- Linux value shared by `EWOULDBLOCK`/`EAGAIN`. -/
def eagainErrno : Int := 11

/-- Result of one of the two receive loops. -/
structure RecvFillOut where
  exits : FillResult
  buffer : RxBuffer
  stream : List ℕ
  evs : List RecvEv
  log : CallLog
deriving DecidableEq, Repr

/-- The header/payload receive loops of `TryNonblockingReceive`: read into
`buffer->data` at offset `bytes_received` until `bytes_received ≥ target`.
Returns the loop exit kind, the buffer, the unread remainder of the inbound
stream, the unconsumed schedule and the call log. -/
def recvFill (target : ℕ) :
    RxBuffer → List ℕ → List RecvEv → RecvFillOut
  | b, stream, [] =>
      if target ≤ b.bytes_received then ⟨.filled, b, stream, [], []⟩
      else ⟨.starved, b, stream, [], []⟩
  | b, stream, ev :: evs =>
      if target ≤ b.bytes_received then ⟨.filled, b, stream, ev :: evs, []⟩
      else
        match ev with
        | .wouldBlock => ⟨.blocked, b, stream, evs, [(-1, eagainErrno)]⟩
        | .fail e => ⟨.threw ⟨"recv", -1, e⟩, b, stream, evs, [(-1, e)]⟩
        | .avail n =>
            let delivered := stream.take (min n (target - b.bytes_received))
            if delivered.length = 0 then ⟨.closed, b, stream, evs, [(0, 0)]⟩
            else
              let b' : RxBuffer :=
                { b with data := b.data.take b.bytes_received ++ delivered,
                         bytes_received := b.bytes_received + delivered.length }
              let r := recvFill target b' (stream.drop delivered.length) evs
              ⟨r.exits, r.buffer, r.stream, r.evs,
                ((delivered.length : Int), 0) :: r.log⟩

/-- Result of one `TryNonblockingReceive` call. -/
structure RecvTryOut where
  exits : FillResult
  buffer : RxBuffer
  stream : List ℕ
  evs : List RecvEv
  log : CallLog
deriving DecidableEq, Repr

/-- `TryNonblockingReceive(fd, buffer)`: fill the 4-byte header, decode
`payload_size` with `ntohl`, then fill the payload;  `.filled`/`.blocked`
exits return `true`, a `.closed` exit returns `false`. -/
def TryNonblockingReceive (b : RxBuffer) (stream : List ℕ) (evs : List RecvEv) :
    RecvTryOut :=
  let r1 := recvFill kHeaderSize b stream evs
  match r1.exits with
  | .filled =>
      let b1 : RxBuffer := { r1.buffer with payload_size := ntohl32 (r1.buffer.data.take 4) }
      let r2 := recvFill (b1.payload_size + kHeaderSize) b1 r1.stream r1.evs
      ⟨r2.exits, r2.buffer, r2.stream, r2.evs, r1.log ++ r2.log⟩
  | other => ⟨other, r1.buffer, r1.stream, r1.evs, r1.log⟩

/-- One chunk of bytes handed to `send`, together with the buffer queue
position it came from (`buf`, counted in enqueue order), the value of
`bytes_sent` when the chunk was written (`start`), and the full frame length
`payload_size + kHeaderSize` of that buffer (`msgLen`) — the last two fields
are bookkeeping derived from the buffer being sent. -/
structure WriteRec where
  buf : ℕ
  start : ℕ
  bytes : List ℕ
  msgLen : ℕ
deriving DecidableEq, Repr

/-- Result of one of the two send loops: the loop exit kind, the new
`bytes_sent`, the unconsumed schedule, the chunks written (as
`(start, bytes)` pairs) and the call log. -/
structure SendFillOut where
  exits : FillResult
  sent : ℕ
  evs : List SendEv
  chunks : List (ℕ × List ℕ)
  log : CallLog
deriving DecidableEq, Repr

/-- The header/payload send loops of `TryNonblockingSend`: hand
`src bytes_sent, src (bytes_sent+1), …` to the socket until
`bytes_sent ≥ target`. -/
def sendFill (src : ℕ → ℕ) (target : ℕ) :
    ℕ → List SendEv → SendFillOut
  | sent, [] =>
      if target ≤ sent then ⟨.filled, sent, [], [], []⟩
      else ⟨.starved, sent, [], [], []⟩
  | sent, ev :: evs =>
      if target ≤ sent then ⟨.filled, sent, ev :: evs, [], []⟩
      else
        match ev with
        | .wouldBlock => ⟨.blocked, sent, evs, [], [(-1, eagainErrno)]⟩
        | .fail e => ⟨.threw ⟨"send", -1, e⟩, sent, evs, [], [(-1, e)]⟩
        | .accept n =>
            let k := min n (target - sent)
            if k = 0 then ⟨.closed, sent, evs, [], [(0, 0)]⟩
            else
              let chunk := (sent, (List.range k).map fun i => src (sent + i))
              let r := sendFill src target (sent + k) evs
              ⟨r.exits, r.sent, r.evs, chunk :: r.chunks, ((k : Int), 0) :: r.log⟩

/-- Result of one `TryNonblockingSend` call. -/
structure SendTryOut where
  exits : FillResult
  buffer : TxBuffer
  evs : List SendEv
  chunks : List (ℕ × List ℕ)
  log : CallLog
deriving DecidableEq, Repr

/-- `TryNonblockingSend(fd, buffer)`: send the 4 `htonl` header bytes from
`size_data[bytes_sent]`, then — as the code is written — the bytes
`data.data()[bytes_sent]` for `bytes_sent ∈ [kHeaderSize, payload_size +
kHeaderSize)`, i.e. the payload indices are NOT shifted back by the header
size (out-of-range reads are served by `oob`). -/
def TryNonblockingSend (oob : ℕ → ℕ) (b : TxBuffer) (evs : List SendEv) :
    SendTryOut :=
  let hdr := htonl32 b.payload_size
  let r1 := sendFill (fun i => hdr.getD i 0) kHeaderSize b.bytes_sent evs
  match r1.exits with
  | .filled =>
      let r2 := sendFill (txByteAt oob b) (b.payload_size + kHeaderSize) r1.sent r1.evs
      ⟨r2.exits, { b with bytes_sent := r2.sent }, r2.evs,
        r1.chunks ++ r2.chunks, r1.log ++ r2.log⟩
  | other =>
      ⟨other, { b with bytes_sent := r1.sent }, r1.evs, r1.chunks, r1.log⟩

/-- How one of the two phase loops of `ProcessIO` exited. -/
inductive LoopExit where
  /-- the `while` condition went false / `break`: fall through to the next phase -/
  | passed
  /-- `return false`: a socket call observed orderly shutdown -/
  | closed
  /-- `HandleError` threw -/
  | threw (e : ErrorReport)
  /-- model artifact: schedule or fuel exhausted mid-loop -/
  | starved
deriving DecidableEq, Repr

/-- Result of the outbound-drain loop of `ProcessIO`. -/
structure SendLoopOut where
  exits : LoopExit
  current : Option TxBuffer
  queue : List TxBuffer
  evs : List SendEv
  writes : List WriteRec
  log : CallLog
deriving DecidableEq, Repr

/-- Tag each `(start, bytes)` chunk of one buffer's `TryNonblockingSend`
call with the buffer's queue position and frame length, for the write
trace. -/
def tagChunks (idx msgLen : ℕ) (cs : List (ℕ × List ℕ)) : List WriteRec :=
  cs.map fun c => ⟨idx, c.1, c.2, msgLen⟩

/-- The `while (current_outgoing_message_ != nullptr)` loop of
`Transport::ProcessIO`: keep calling `TryNonblockingSend` on the current
message; on `return false` propagate closure; once the current message is
`done()`, pop the next from the front of the outbound deque (or clear).
`idx` tags each emitted `WriteRec` with the queue position (in enqueue order)
of the buffer it came from; it is bookkeeping only. -/
def sendLoop (oob : ℕ → ℕ) :
    ℕ → ℕ → Option TxBuffer → List TxBuffer → List SendEv → SendLoopOut
  | 0, _, current, queue, evs => ⟨.starved, current, queue, evs, [], []⟩
  | _ + 1, _, none, queue, evs => ⟨.passed, none, queue, evs, [], []⟩
  | fuel + 1, idx, some b, queue, evs =>
      let r := TryNonblockingSend oob b evs
      let ws := tagChunks idx (b.payload_size + kHeaderSize) r.chunks
      match r.exits with
      | .closed => ⟨.closed, some r.buffer, queue, r.evs, ws, r.log⟩
      | .threw e => ⟨.threw e, some r.buffer, queue, r.evs, ws, r.log⟩
      | .starved => ⟨.starved, some r.buffer, queue, r.evs, ws, r.log⟩
      | _ =>
          if r.buffer.done then
            match queue with
            | [] =>
                let rest := sendLoop oob fuel (idx + 1) none [] r.evs
                ⟨rest.exits, rest.current, rest.queue, rest.evs,
                  ws ++ rest.writes, r.log ++ rest.log⟩
            | q :: qs =>
                let rest := sendLoop oob fuel (idx + 1) (some q) qs r.evs
                ⟨rest.exits, rest.current, rest.queue, rest.evs,
                  ws ++ rest.writes, r.log ++ rest.log⟩
          else
            let rest := sendLoop oob fuel idx (some r.buffer) queue r.evs
            ⟨rest.exits, rest.current, rest.queue, rest.evs,
              ws ++ rest.writes, r.log ++ rest.log⟩

/-- Result of the inbound-drain loop of `ProcessIO`. -/
structure RecvLoopOut where
  exits : LoopExit
  inbound : List RxBuffer
  current : RxBuffer
  stream : List ℕ
  evs : List RecvEv
  log : CallLog
deriving DecidableEq, Repr

/-- The `while (current_incoming_message_ != nullptr)` loop of
`Transport::ProcessIO`: call `TryNonblockingReceive`; on `return false`
propagate closure; when the current message is `done()`, push it onto the
back of the inbound queue and continue with a fresh buffer; otherwise
`break`. -/
def recvLoop :
    ℕ → List RxBuffer → RxBuffer → List ℕ → List RecvEv → RecvLoopOut
  | 0, inbound, current, stream, evs => ⟨.starved, inbound, current, stream, evs, []⟩
  | fuel + 1, inbound, current, stream, evs =>
      let r := TryNonblockingReceive current stream evs
      match r.exits with
      | .closed => ⟨.closed, inbound, r.buffer, r.stream, r.evs, r.log⟩
      | .threw e => ⟨.threw e, inbound, r.buffer, r.stream, r.evs, r.log⟩
      | .starved => ⟨.starved, inbound, r.buffer, r.stream, r.evs, r.log⟩
      | _ =>
          if r.buffer.done then
            let rest := recvLoop fuel (inbound ++ [r.buffer]) freshRxBuffer r.stream r.evs
            ⟨rest.exits, rest.inbound, rest.current, rest.stream, rest.evs,
              r.log ++ rest.log⟩
          else
            ⟨.passed, inbound, r.buffer, r.stream, r.evs, r.log⟩

/-- The queues of a `Transport` object (the fields of `transport.h` the
claims are about). -/
structure TransportState where
  inbound_buffers : List RxBuffer
  current_incoming : Option RxBuffer
  outbound_buffers : List TxBuffer
  current_outgoing : Option TxBuffer
deriving DecidableEq, Repr

/-- `Transport::SendBuffer`: copy the datagram onto the back of the outbound
deque; actual sending is deferred to `ProcessIO`. -/
def SendBuffer (st : TransportState) (b : TxBuffer) : TransportState :=
  { st with outbound_buffers := st.outbound_buffers ++ [b] }

/-- `Transport::Send(data)`: `SendBuffer({data.size(), data, 0})`. -/
def Send (st : TransportState) (data : List ℕ) : TransportState :=
  SendBuffer st ⟨data.length, data, 0⟩

/-- `Transport::ReceiveAll()`: move every queued inbound datagram out, in
queue order, leaving the inbound queue empty. -/
def ReceiveAll (st : TransportState) : List RxBuffer × TransportState :=
  (st.inbound_buffers, { st with inbound_buffers := [] })

/-- Overall result of one `ProcessIO` call. -/
inductive IoOutcome where
  | ret (stillOpen : Bool)
  | threw (e : ErrorReport)
  | starved
deriving DecidableEq, Repr

/-- Result of a `ProcessIO` call: outcome, new state, unconsumed schedules
and stream, writes put on the wire, and the raw socket-call log. -/
structure IoOut where
  outcome : IoOutcome
  state : TransportState
  sendEvs : List SendEv
  recvEvs : List RecvEv
  stream : List ℕ
  writes : List WriteRec
  log : CallLog
deriving DecidableEq, Repr

/-- The `if (current_outgoing_message_ == nullptr && !outbound_buffers_.empty())`
pop at the top of `ProcessIO`. -/
def popFront (cur : Option TxBuffer) (queue : List TxBuffer) :
    Option TxBuffer × List TxBuffer :=
  match cur, queue with
  | none, q :: qs => (some q, qs)
  | c, q => (c, q)

/-- The `if (current_incoming_message_ == nullptr)` fresh-buffer allocation of
`ProcessIO`. -/
def currentOrFresh : Option RxBuffer → RxBuffer
  | none => freshRxBuffer
  | some b => b

/-- `Transport::ProcessIO` (single-call model; the thread-identity guard is
outside the claims): pop the front outbound buffer if none is current, drain
the outbound deque, then drain the socket into the inbound queue; `.ret
false` corresponds to the C++ `return false` paths and `.ret true` to the
final `return true`. -/
def ProcessIo (oob : ℕ → ℕ) (fuel : ℕ) (st : TransportState)
    (sevs : List SendEv) (revs : List RecvEv) (stream : List ℕ) : IoOut :=
  let cq := popFront st.current_outgoing st.outbound_buffers
  let s := sendLoop oob fuel 0 cq.1 cq.2 sevs
  let st1 : TransportState :=
    { st with current_outgoing := s.current, outbound_buffers := s.queue }
  match s.exits with
  | .closed => ⟨.ret false, st1, s.evs, revs, stream, s.writes, s.log⟩
  | .threw e => ⟨.threw e, st1, s.evs, revs, stream, s.writes, s.log⟩
  | .starved => ⟨.starved, st1, s.evs, revs, stream, s.writes, s.log⟩
  | .passed =>
      let rcur := currentOrFresh st.current_incoming
      let r := recvLoop fuel st.inbound_buffers rcur stream revs
      let st2 : TransportState :=
        { st1 with inbound_buffers := r.inbound, current_incoming := some r.current }
      match r.exits with
      | .closed => ⟨.ret false, st2, s.evs, r.evs, r.stream, s.writes, s.log ++ r.log⟩
      | .threw e => ⟨.threw e, st2, s.evs, r.evs, r.stream, s.writes, s.log ++ r.log⟩
      | .starved => ⟨.starved, st2, s.evs, r.evs, r.stream, s.writes, s.log ++ r.log⟩
      | .passed => ⟨.ret true, st2, s.evs, r.evs, r.stream, s.writes, s.log ++ r.log⟩

/-! ### Claim C9: `ReceiveAll` drains the inbound queue -/

/-- C9: `ReceiveAll` returns the queued inbound datagrams in arrival (queue)
order, leaves the inbound queue empty — so an immediate second call returns
nothing — and touches no other field. -/
theorem receiveAll_drains (st : TransportState) :
    (ReceiveAll st).1 = st.inbound_buffers
    ∧ (ReceiveAll st).2.inbound_buffers = []
    ∧ (ReceiveAll (ReceiveAll st).2).1 = []
    ∧ (ReceiveAll st).2.outbound_buffers = st.outbound_buffers
    ∧ (ReceiveAll st).2.current_incoming = st.current_incoming
    ∧ (ReceiveAll st).2.current_outgoing = st.current_outgoing :=
  ⟨rfl, rfl, rfl, rfl, rfl, rfl⟩

/-! ### Claim C5: the wire framing -/

/-- C5 (code bug): `Transport::Send([1,2,3])` enqueues
`TxBuffer{payload_size = 3, data = [1,2,3], bytes_sent = 0}`, but draining
that buffer puts on the wire the 4 header bytes followed by
`data.data()[4..7)` — indices past the end of the 3-byte vector (here served
by the out-of-bounds model `oob`) — so the payload bytes `1,2,3` never reach
the wire even though the transport marks the frame `done()`; in particular
the wire content depends on `oob`, i.e. on memory the payload does not
determine.  The 4-byte big-endian length itself does round-trip: a receiver
of those 7 bytes decodes `payload_size = 3` and is `done()` after exactly
`payload_size + 4` bytes. -/
theorem send_drops_first_payload_bytes :
    (Send ⟨[], none, [], none⟩ [1, 2, 3]).outbound_buffers = [⟨3, [1, 2, 3], 0⟩]
    ∧ ((TryNonblockingSend (fun _ => 0) ⟨3, [1, 2, 3], 0⟩
          [.accept 4, .accept 3]).chunks.map Prod.snd).flatten
        = [0, 0, 0, 3, 0, 0, 0]
    ∧ [0, 0, 0, 3, 0, 0, 0] ≠ htonl32 3 ++ [1, 2, 3]
    ∧ (TryNonblockingSend (fun _ => 0) ⟨3, [1, 2, 3], 0⟩
          [.accept 4, .accept 3]).buffer.done = true
    ∧ (TryNonblockingSend (fun _ => 1) ⟨3, [1, 2, 3], 0⟩ [.accept 4, .accept 3]).chunks
        ≠ (TryNonblockingSend (fun _ => 0) ⟨3, [1, 2, 3], 0⟩ [.accept 4, .accept 3]).chunks
    ∧ (TryNonblockingReceive freshRxBuffer [0, 0, 0, 3, 0, 0, 0]
          [.avail 7, .avail 7]).buffer.payload_size = 3
    ∧ (TryNonblockingReceive freshRxBuffer [0, 0, 0, 3, 0, 0, 0]
          [.avail 7, .avail 7]).buffer.done = true
    ∧ (TryNonblockingReceive freshRxBuffer [0, 0, 0, 3, 0, 0, 0]
          [.avail 7, .avail 7]).buffer.bytes_received = 3 + kHeaderSize := by
  decide

/-! ### Claim C7: `ProcessIO` returns `false` exactly on orderly shutdown -/

/-- Does the raw socket-call log end with a result of `0` (the value `recv`
and `send` return exactly when the remote end performed an orderly
shutdown)? -/
def endsInZero : CallLog → Bool
  | [] => false
  | [p] => p.1 == 0
  | _ :: q :: rest => endsInZero (q :: rest)

lemma endsInZero_cons_cons (p q : Int × Int) (l : CallLog) :
    endsInZero (p :: q :: l) = endsInZero (q :: l) := rfl

lemma endsInZero_cons_of_ne (p : Int × Int) (hp : p.1 ≠ 0) (l : CallLog) :
    endsInZero (p :: l) = endsInZero l := by
  cases l with
  | nil => simp [endsInZero, hp]
  | cons q l => rfl

lemma endsInZero_append (l1 l2 : CallLog) (h : l2 ≠ []) :
    endsInZero (l1 ++ l2) = endsInZero l2 := by
  induction l1 with
  | nil => rfl
  | cons p l1 ih =>
    have hne : l1 ++ l2 ≠ [] := by
      intro hc
      exact h (List.append_eq_nil.mp hc).2
    rw [List.cons_append]
    cases hcl : l1 ++ l2 with
    | nil => exact absurd hcl hne
    | cons q l =>
      rw [endsInZero_cons_cons, ← hcl, ih]

lemma endsInZero_append_left_false (l1 l2 : CallLog)
    (h : endsInZero l1 = false) :
    endsInZero (l1 ++ l2) = endsInZero l2 := by
  cases l2 with
  | nil => simpa [endsInZero] using h
  | cons q l => exact endsInZero_append _ _ (by simp)

lemma recvFill_closed_iff (target : ℕ) (b : RxBuffer) (stream : List ℕ)
    (evs : List RecvEv) :
    ((recvFill target b stream evs).exits = .closed) ↔
      endsInZero (recvFill target b stream evs).log = true := by
  induction evs generalizing b stream with
  | nil =>
    simp only [recvFill]
    split <;> simp [endsInZero]
  | cons ev evs ih =>
    simp only [recvFill]
    split
    · simp [endsInZero]
    · match ev with
      | .wouldBlock => simp [endsInZero]
      | .fail e => simp [endsInZero]
      | .avail n =>
        simp only []
        split
        · simp [endsInZero]
        · rename_i hlen
          rw [endsInZero_cons_of_ne _ (fun hc => hlen (Int.natCast_eq_zero.mp hc))]
          exact ih _ _

lemma sendFill_closed_iff (src : ℕ → ℕ) (target sent : ℕ)
    (evs : List SendEv) :
    ((sendFill src target sent evs).exits = .closed) ↔
      endsInZero (sendFill src target sent evs).log = true := by
  induction evs generalizing sent with
  | nil =>
    simp only [sendFill]
    split <;> simp [endsInZero]
  | cons ev evs ih =>
    simp only [sendFill]
    split
    · simp [endsInZero]
    · match ev with
      | .wouldBlock => simp [endsInZero]
      | .fail e => simp [endsInZero]
      | .accept n =>
        simp only []
        split
        · simp [endsInZero]
        · rename_i hlen
          rw [endsInZero_cons_of_ne _ (fun hc => hlen (Int.natCast_eq_zero.mp hc))]
          exact ih _

lemma recvFill_log_false (target : ℕ) (b : RxBuffer) (stream : List ℕ)
    (evs : List RecvEv) (h : (recvFill target b stream evs).exits ≠ .closed) :
    endsInZero (recvFill target b stream evs).log = false := by
  cases hb : endsInZero (recvFill target b stream evs).log with
  | false => rfl
  | true => exact absurd ((recvFill_closed_iff _ _ _ _).mpr hb) h

lemma sendFill_log_false (src : ℕ → ℕ) (target sent : ℕ) (evs : List SendEv)
    (h : (sendFill src target sent evs).exits ≠ .closed) :
    endsInZero (sendFill src target sent evs).log = false := by
  cases hb : endsInZero (sendFill src target sent evs).log with
  | false => rfl
  | true => exact absurd ((sendFill_closed_iff _ _ _ _).mpr hb) h

lemma tryReceive_closed_iff (b : RxBuffer) (stream : List ℕ)
    (evs : List RecvEv) :
    ((TryNonblockingReceive b stream evs).exits = .closed) ↔
      endsInZero (TryNonblockingReceive b stream evs).log = true := by
  simp only [TryNonblockingReceive]
  cases hx : (recvFill kHeaderSize b stream evs).exits with
  | filled =>
    have h1 := recvFill_log_false kHeaderSize b stream evs (by rw [hx]; simp)
    simp only []
    rw [endsInZero_append_left_false _ _ h1]
    exact recvFill_closed_iff _ _ _ _
  | closed =>
    have h1 := (recvFill_closed_iff kHeaderSize b stream evs).mp hx
    simpa using h1
  | blocked =>
    have h1 := recvFill_log_false kHeaderSize b stream evs (by rw [hx]; simp)
    simp [h1]
  | threw e =>
    have h1 := recvFill_log_false kHeaderSize b stream evs (by rw [hx]; simp)
    simp [h1]
  | starved =>
    have h1 := recvFill_log_false kHeaderSize b stream evs (by rw [hx]; simp)
    simp [h1]

lemma trySend_closed_iff (oob : ℕ → ℕ) (b : TxBuffer) (evs : List SendEv) :
    ((TryNonblockingSend oob b evs).exits = .closed) ↔
      endsInZero (TryNonblockingSend oob b evs).log = true := by
  simp only [TryNonblockingSend]
  cases hx : (sendFill (fun i => (htonl32 b.payload_size).getD i 0) kHeaderSize
      b.bytes_sent evs).exits with
  | filled =>
    have h1 := sendFill_log_false (fun i => (htonl32 b.payload_size).getD i 0)
      kHeaderSize b.bytes_sent evs (by rw [hx]; simp)
    simp only []
    rw [endsInZero_append_left_false _ _ h1]
    exact sendFill_closed_iff _ _ _ _
  | closed =>
    have h1 := (sendFill_closed_iff (fun i => (htonl32 b.payload_size).getD i 0)
      kHeaderSize b.bytes_sent evs).mp hx
    simpa using h1
  | blocked =>
    have h1 := sendFill_log_false (fun i => (htonl32 b.payload_size).getD i 0)
      kHeaderSize b.bytes_sent evs (by rw [hx]; simp)
    simp only [h1]
    simp
  | threw e =>
    have h1 := sendFill_log_false (fun i => (htonl32 b.payload_size).getD i 0)
      kHeaderSize b.bytes_sent evs (by rw [hx]; simp)
    simp only [h1]
    simp
  | starved =>
    have h1 := sendFill_log_false (fun i => (htonl32 b.payload_size).getD i 0)
      kHeaderSize b.bytes_sent evs (by rw [hx]; simp)
    simp only [h1]
    simp

lemma tryReceive_log_false (b : RxBuffer) (stream : List ℕ) (evs : List RecvEv)
    (h : (TryNonblockingReceive b stream evs).exits ≠ .closed) :
    endsInZero (TryNonblockingReceive b stream evs).log = false := by
  cases hb : endsInZero (TryNonblockingReceive b stream evs).log with
  | false => rfl
  | true => exact absurd ((tryReceive_closed_iff _ _ _).mpr hb) h

lemma trySend_log_false (oob : ℕ → ℕ) (b : TxBuffer) (evs : List SendEv)
    (h : (TryNonblockingSend oob b evs).exits ≠ .closed) :
    endsInZero (TryNonblockingSend oob b evs).log = false := by
  cases hb : endsInZero (TryNonblockingSend oob b evs).log with
  | false => rfl
  | true => exact absurd ((trySend_closed_iff _ _ _).mpr hb) h

lemma sendLoop_closed_iff (oob : ℕ → ℕ) :
    ∀ (fuel idx : ℕ) (cur : Option TxBuffer) (queue : List TxBuffer)
      (evs : List SendEv),
    ((sendLoop oob fuel idx cur queue evs).exits = .closed) ↔
      endsInZero (sendLoop oob fuel idx cur queue evs).log = true
  | 0, _, cur, queue, evs => by simp [sendLoop, endsInZero]
  | _ + 1, _, none, queue, evs => by simp [sendLoop, endsInZero]
  | fuel + 1, idx, some b, queue, evs => by
    simp only [sendLoop]
    cases hr : (TryNonblockingSend oob b evs).exits with
    | closed => simpa using (trySend_closed_iff oob b evs).mp hr
    | threw e =>
      have h1 := trySend_log_false oob b evs (by rw [hr]; simp)
      simp only [h1]
      simp
    | starved =>
      have h1 := trySend_log_false oob b evs (by rw [hr]; simp)
      simp only [h1]
      simp
    | filled =>
      have h1 := trySend_log_false oob b evs (by rw [hr]; simp)
      simp only []
      by_cases hd : (TryNonblockingSend oob b evs).buffer.done
      · cases queue with
        | nil =>
          simp only [hd, if_true]
          rw [endsInZero_append_left_false _ _ h1]
          exact sendLoop_closed_iff oob fuel (idx + 1) none [] _
        | cons q qs =>
          simp only [hd, if_true]
          rw [endsInZero_append_left_false _ _ h1]
          exact sendLoop_closed_iff oob fuel (idx + 1) (some q) qs _
      · simp [hd]
        rw [endsInZero_append_left_false _ _ h1]
        exact sendLoop_closed_iff oob fuel idx _ queue _
    | blocked =>
      have h1 := trySend_log_false oob b evs (by rw [hr]; simp)
      simp only []
      by_cases hd : (TryNonblockingSend oob b evs).buffer.done
      · cases queue with
        | nil =>
          simp only [hd, if_true]
          rw [endsInZero_append_left_false _ _ h1]
          exact sendLoop_closed_iff oob fuel (idx + 1) none [] _
        | cons q qs =>
          simp only [hd, if_true]
          rw [endsInZero_append_left_false _ _ h1]
          exact sendLoop_closed_iff oob fuel (idx + 1) (some q) qs _
      · simp [hd]
        rw [endsInZero_append_left_false _ _ h1]
        exact sendLoop_closed_iff oob fuel idx _ queue _

lemma recvLoop_closed_iff :
    ∀ (fuel : ℕ) (inbound : List RxBuffer) (current : RxBuffer)
      (stream : List ℕ) (evs : List RecvEv),
    ((recvLoop fuel inbound current stream evs).exits = .closed) ↔
      endsInZero (recvLoop fuel inbound current stream evs).log = true
  | 0, inbound, current, stream, evs => by simp [recvLoop, endsInZero]
  | fuel + 1, inbound, current, stream, evs => by
    simp only [recvLoop]
    cases hr : (TryNonblockingReceive current stream evs).exits with
    | closed => simpa using (tryReceive_closed_iff current stream evs).mp hr
    | threw e =>
      have h1 := tryReceive_log_false current stream evs (by rw [hr]; simp)
      simp only [h1]
      simp
    | starved =>
      have h1 := tryReceive_log_false current stream evs (by rw [hr]; simp)
      simp only [h1]
      simp
    | filled =>
      have h1 := tryReceive_log_false current stream evs (by rw [hr]; simp)
      simp only []
      by_cases hd : (TryNonblockingReceive current stream evs).buffer.done
      · simp only [hd, if_true]
        rw [endsInZero_append_left_false _ _ h1]
        exact recvLoop_closed_iff fuel _ freshRxBuffer _ _
      · simp [hd, h1]
    | blocked =>
      have h1 := tryReceive_log_false current stream evs (by rw [hr]; simp)
      simp only []
      by_cases hd : (TryNonblockingReceive current stream evs).buffer.done
      · simp only [hd, if_true]
        rw [endsInZero_append_left_false _ _ h1]
        exact recvLoop_closed_iff fuel _ freshRxBuffer _ _
      · simp [hd, h1]

lemma sendLoop_log_false (oob : ℕ → ℕ) (fuel idx : ℕ) (cur : Option TxBuffer)
    (queue : List TxBuffer) (evs : List SendEv)
    (h : (sendLoop oob fuel idx cur queue evs).exits ≠ .closed) :
    endsInZero (sendLoop oob fuel idx cur queue evs).log = false := by
  cases hb : endsInZero (sendLoop oob fuel idx cur queue evs).log with
  | false => rfl
  | true => exact absurd ((sendLoop_closed_iff oob fuel idx cur queue evs).mpr hb) h

lemma recvLoop_log_false (fuel : ℕ) (inbound : List RxBuffer)
    (current : RxBuffer) (stream : List ℕ) (evs : List RecvEv)
    (h : (recvLoop fuel inbound current stream evs).exits ≠ .closed) :
    endsInZero (recvLoop fuel inbound current stream evs).log = false := by
  cases hb : endsInZero (recvLoop fuel inbound current stream evs).log with
  | false => rfl
  | true => exact absurd ((recvLoop_closed_iff fuel inbound current stream evs).mpr hb) h

/-- C7: the model `ProcessIO` returns `false` exactly when its last socket
call observed an orderly shutdown — a `recv` or `send` result of `0`.  A
would-block result is logged as `(-1, EWOULDBLOCK)` and a failing call
throws instead of returning, so neither is ever reported as closure, and
every terminating, non-throwing execution whose calls never return `0`
returns `true`. -/
theorem processio_false_iff_remote_closed (oob : ℕ → ℕ) (fuel : ℕ)
    (st : TransportState) (sevs : List SendEv) (revs : List RecvEv)
    (stream : List ℕ) :
    ((ProcessIo oob fuel st sevs revs stream).outcome = .ret false)
      ↔ endsInZero (ProcessIo oob fuel st sevs revs stream).log = true := by
  simp only [ProcessIo]
  cases hs : (sendLoop oob fuel 0
      (popFront st.current_outgoing st.outbound_buffers).1
      (popFront st.current_outgoing st.outbound_buffers).2 sevs).exits with
  | closed =>
    simpa using (sendLoop_closed_iff oob fuel 0 _ _ sevs).mp hs
  | threw e =>
    have h1 := sendLoop_log_false oob fuel 0 _ _ sevs (by rw [hs]; simp)
    simp only [h1]
    simp
  | starved =>
    have h1 := sendLoop_log_false oob fuel 0 _ _ sevs (by rw [hs]; simp)
    simp only [h1]
    simp
  | passed =>
    have h1 := sendLoop_log_false oob fuel 0 _ _ sevs (by rw [hs]; simp)
    simp only []
    cases hr : (recvLoop fuel st.inbound_buffers
        (currentOrFresh st.current_incoming) stream revs).exits with
    | closed =>
      rw [endsInZero_append_left_false _ _ h1]
      simpa using (recvLoop_closed_iff fuel _ _ stream revs).mp hr
    | threw e =>
      have h2 := recvLoop_log_false fuel _ _ stream revs (by rw [hr]; simp)
      rw [endsInZero_append_left_false _ _ h1]
      simp only [h2]
      simp
    | starved =>
      have h2 := recvLoop_log_false fuel _ _ stream revs (by rw [hr]; simp)
      rw [endsInZero_append_left_false _ _ h1]
      simp only [h2]
      simp
    | passed =>
      have h2 := recvLoop_log_false fuel _ _ stream revs (by rw [hr]; simp)
      rw [endsInZero_append_left_false _ _ h1]
      simp only [h2]
      simp

/-! ### Claim C6: in-order, duplication-free draining -/

/-- The chunk list `cs` tiles the byte range starting at offset `s`: each
chunk is nonempty, starts where the previous one ended, and the first starts
at `s`. -/
def ChunksFrom (s : ℕ) : List (ℕ × List ℕ) → Prop
  | [] => True
  | c :: cs => c.1 = s ∧ c.2 ≠ [] ∧ ChunksFrom (s + c.2.length) cs

/-- Total number of bytes in a chunk list. -/
def chunksTotal (cs : List (ℕ × List ℕ)) : ℕ :=
  (cs.map fun c => c.2.length).sum

/-- Trace order between two socket writes: the earlier-enqueued buffer comes
first, and two writes to the same buffer never overlap (no byte re-sent). -/
def wOrd (w1 w2 : WriteRec) : Prop :=
  w1.buf ≤ w2.buf ∧ (w1.buf = w2.buf → w1.start + w1.bytes.length ≤ w2.start)

/-- Adjacent-trace relation: consecutive writes to the same buffer are
contiguous, and a write followed by a write to a different buffer had
completed its buffer's frame (header plus payload). -/
def wStep (w1 w2 : WriteRec) : Prop :=
  (w1.buf = w2.buf → w2.start = w1.start + w1.bytes.length)
  ∧ (w1.buf ≠ w2.buf → w1.start + w1.bytes.length = w1.msgLen)

lemma chunksTotal_cons (c : ℕ × List ℕ) (cs : List (ℕ × List ℕ)) :
    chunksTotal (c :: cs) = c.2.length + chunksTotal cs := by
  simp [chunksTotal]

lemma chunksTotal_append (cs1 cs2 : List (ℕ × List ℕ)) :
    chunksTotal (cs1 ++ cs2) = chunksTotal cs1 + chunksTotal cs2 := by
  simp [chunksTotal]

lemma ChunksFrom.append {s : ℕ} {cs1 cs2 : List (ℕ × List ℕ)}
    (h1 : ChunksFrom s cs1) (h2 : ChunksFrom (s + chunksTotal cs1) cs2) :
    ChunksFrom s (cs1 ++ cs2) := by
  induction cs1 generalizing s with
  | nil => simpa [chunksTotal] using h2
  | cons c cs ih =>
    obtain ⟨hc, hne, hrest⟩ := h1
    refine ⟨hc, hne, ih hrest ?_⟩
    have : s + c.2.length + chunksTotal cs = s + chunksTotal (c :: cs) := by
      rw [chunksTotal_cons]; omega
    rw [this]
    exact h2

lemma ChunksFrom.nonempty {s : ℕ} {cs : List (ℕ × List ℕ)}
    (h : ChunksFrom s cs) : ∀ c ∈ cs, c.2 ≠ [] := by
  induction cs generalizing s with
  | nil => simp
  | cons c cs ih =>
    obtain ⟨_, hne, hrest⟩ := h
    intro c' hc'
    rcases List.mem_cons.mp hc' with hc' | hc'
    · exact hc' ▸ hne
    · exact ih hrest c' hc'

lemma ChunksFrom.bounds {s : ℕ} {cs : List (ℕ × List ℕ)}
    (h : ChunksFrom s cs) :
    ∀ c ∈ cs, s ≤ c.1 ∧ c.1 + c.2.length ≤ s + chunksTotal cs := by
  induction cs generalizing s with
  | nil => simp
  | cons c cs ih =>
    obtain ⟨hc, _, hrest⟩ := h
    intro c' hc'
    rcases List.mem_cons.mp hc' with hc' | hc'
    · subst hc'
      have := (chunksTotal_cons c' cs)
      omega
    · have hb := ih hrest c' hc'
      have := (chunksTotal_cons c cs)
      omega

lemma ChunksFrom.head {s : ℕ} {cs : List (ℕ × List ℕ)}
    (h : ChunksFrom s cs) : ∀ c, cs.head? = some c → c.1 = s := by
  cases cs with
  | nil => simp
  | cons c cs =>
    intro c' hc'
    simp at hc'
    exact hc' ▸ h.1

lemma ChunksFrom.getLast {s : ℕ} {cs : List (ℕ × List ℕ)}
    (h : ChunksFrom s cs) :
    ∀ c, cs.getLast? = some c → c.1 + c.2.length = s + chunksTotal cs := by
  induction cs generalizing s with
  | nil => simp
  | cons c cs ih =>
    obtain ⟨hc, _, hrest⟩ := h
    intro c' hc'
    cases cs with
    | nil =>
      simp at hc'
      subst hc'
      simp [chunksTotal_cons, chunksTotal, hc]
    | cons d ds =>
      rw [List.getLast?_cons_cons] at hc'
      have := ih hrest c' hc'
      rw [chunksTotal_cons]
      omega

lemma ChunksFrom.last_mem {s : ℕ} {cs : List (ℕ × List ℕ)}
    (h : ChunksFrom s cs) (hne : cs ≠ []) :
    ∃ c ∈ cs, c.1 + c.2.length = s + chunksTotal cs := by
  have h1 := List.getLast?_eq_getLast_of_ne_nil hne
  exact ⟨cs.getLast hne, List.getLast_mem hne, h.getLast _ h1⟩

lemma ChunksFrom.pairwise {s : ℕ} {cs : List (ℕ × List ℕ)}
    (h : ChunksFrom s cs) :
    List.Pairwise (fun c1 c2 : ℕ × List ℕ => c1.1 + c1.2.length ≤ c2.1) cs := by
  induction cs generalizing s with
  | nil => exact List.Pairwise.nil
  | cons c cs ih =>
    obtain ⟨hc, _, hrest⟩ := h
    refine List.Pairwise.cons ?_ (ih hrest)
    intro c' hc'
    have := (hrest.bounds c' hc').1
    omega

lemma ChunksFrom.chain {s : ℕ} {cs : List (ℕ × List ℕ)}
    (h : ChunksFrom s cs) :
    List.Chain' (fun c1 c2 : ℕ × List ℕ => c2.1 = c1.1 + c1.2.length) cs := by
  induction cs generalizing s with
  | nil => exact List.chain'_nil
  | cons c cs ih =>
    obtain ⟨hc, _, hrest⟩ := h
    cases cs with
    | nil => simp
    | cons d ds =>
      refine List.Chain'.cons ?_ (ih hrest)
      have := hrest.1
      omega

lemma sendFill_chunksFrom (src : ℕ → ℕ) (target : ℕ) :
    ∀ (sent : ℕ) (evs : List SendEv),
    ChunksFrom sent (sendFill src target sent evs).chunks
    ∧ (sendFill src target sent evs).sent
        = sent + chunksTotal (sendFill src target sent evs).chunks
  | sent, [] => by
    simp only [sendFill]
    split <;> simp [ChunksFrom, chunksTotal]
  | sent, ev :: evs => by
    simp only [sendFill]
    split
    · simp [ChunksFrom, chunksTotal]
    · match ev with
      | .wouldBlock => simp [ChunksFrom, chunksTotal]
      | .fail e => simp [ChunksFrom, chunksTotal]
      | .accept n =>
        simp only []
        split
        · simp [ChunksFrom, chunksTotal]
        · rename_i hk
          have ih := sendFill_chunksFrom src target
            (sent + min n (target - sent)) evs
          set k := min n (target - sent) with hkdef
          refine ⟨⟨rfl, ?_, ?_⟩, ?_⟩
          · simp [hk]
          · simpa using ih.1
          · have ih2 := ih.2
            rw [chunksTotal_cons]
            simp only [List.length_map, List.length_range]
            omega

lemma trySend_chunksFrom (oob : ℕ → ℕ) (b : TxBuffer) (evs : List SendEv) :
    ChunksFrom b.bytes_sent (TryNonblockingSend oob b evs).chunks
    ∧ (TryNonblockingSend oob b evs).buffer.bytes_sent
        = b.bytes_sent + chunksTotal (TryNonblockingSend oob b evs).chunks
    ∧ (TryNonblockingSend oob b evs).buffer.payload_size = b.payload_size
    ∧ (TryNonblockingSend oob b evs).buffer.data = b.data := by
  have h1 := sendFill_chunksFrom (fun i => (htonl32 b.payload_size).getD i 0)
    kHeaderSize b.bytes_sent evs
  simp only [TryNonblockingSend]
  cases hx : (sendFill (fun i => (htonl32 b.payload_size).getD i 0) kHeaderSize
      b.bytes_sent evs).exits with
  | filled =>
    have h2 := sendFill_chunksFrom (txByteAt oob b) (b.payload_size + kHeaderSize)
      (sendFill (fun i => (htonl32 b.payload_size).getD i 0) kHeaderSize
        b.bytes_sent evs).sent
      (sendFill (fun i => (htonl32 b.payload_size).getD i 0) kHeaderSize
        b.bytes_sent evs).evs
    simp only []
    refine ⟨?_, ?_, trivial, trivial⟩
    · refine h1.1.append ?_
      rw [← h1.2]
      exact h2.1
    · rw [chunksTotal_append]
      have e1 := h1.2
      have e2 := h2.2
      omega
  | closed => refine ⟨h1.1, h1.2, rfl, rfl⟩
  | blocked => exact ⟨h1.1, h1.2, rfl, rfl⟩
  | starved => exact ⟨h1.1, h1.2, rfl, rfl⟩
  | threw e => exact ⟨h1.1, h1.2, rfl, rfl⟩

lemma tagChunks_facts (idx ml s0 : ℕ) (cs : List (ℕ × List ℕ))
    (h : ChunksFrom s0 cs) :
    (∀ w ∈ tagChunks idx ml cs, w.buf = idx ∧ w.msgLen = ml ∧ w.bytes ≠ []
       ∧ s0 ≤ w.start ∧ w.start + w.bytes.length ≤ s0 + chunksTotal cs)
    ∧ List.Pairwise wOrd (tagChunks idx ml cs)
    ∧ List.Chain' wStep (tagChunks idx ml cs)
    ∧ (∀ w, (tagChunks idx ml cs).head? = some w → w.buf = idx ∧ w.start = s0)
    ∧ (∀ w, (tagChunks idx ml cs).getLast? = some w →
        w.buf = idx ∧ w.start + w.bytes.length = s0 + chunksTotal cs ∧ w.msgLen = ml)
    ∧ (tagChunks idx ml cs = [] → chunksTotal cs = 0) := by
  refine ⟨?_, ?_, ?_, ?_, ?_, ?_⟩
  · intro w hw
    obtain ⟨c, hc, rfl⟩ := List.mem_map.mp hw
    have hb := h.bounds c hc
    exact ⟨rfl, rfl, h.nonempty c hc, hb.1, hb.2⟩
  · have hp := h.pairwise
    refine List.Pairwise.map _ ?_ hp
    intro c1 c2 hc
    exact ⟨le_refl _, fun _ => hc⟩
  · have hc := h.chain
    rw [tagChunks, List.chain'_map]
    refine hc.imp ?_
    intro c1 c2 hcc
    exact ⟨fun _ => hcc, fun hne => absurd rfl hne⟩
  · intro w hw
    rw [tagChunks, List.head?_map] at hw
    cases hcs : cs.head? with
    | none => rw [hcs] at hw; simp at hw
    | some c =>
      rw [hcs] at hw
      simp at hw
      subst hw
      exact ⟨rfl, h.head c hcs⟩
  · intro w hw
    rw [tagChunks, List.getLast?_map] at hw
    cases hcs : cs.getLast? with
    | none => rw [hcs] at hw; simp at hw
    | some c =>
      rw [hcs] at hw
      simp at hw
      subst hw
      exact ⟨rfl, h.getLast c hcs, rfl⟩
  · intro hw
    have : cs = [] := by
      cases cs with
      | nil => rfl
      | cons c cs' => simp [tagChunks] at hw
    simp [this, chunksTotal]

/-- Well-formedness of the outbound write trace of a `sendLoop` run entered
with buffer tag `idx` and current message `cur`: traces are grouped by
buffer in enqueue order without overlap, consecutive writes are contiguous,
a buffer is left only when its frame is complete, and the trace of the
current message starts at its `bytes_sent`. -/
def SendTraceOk (idx : ℕ) (cur : Option TxBuffer) (ws : List WriteRec) : Prop :=
  (∀ w ∈ ws, idx ≤ w.buf ∧ w.bytes ≠ [])
  ∧ (∀ b, cur = some b →
      (∀ w ∈ ws, w.buf = idx → b.bytes_sent ≤ w.start)
      ∧ (∀ w, ws.head? = some w →
          (w.buf = idx ∧ w.start = b.bytes_sent) ∨ (idx < w.buf ∧ b.done = true))
      ∧ ((∃ w2 ∈ ws, idx < w2.buf) → b.done = true
          ∨ ∃ w3 ∈ ws, w3.buf = idx ∧ w3.start + w3.bytes.length = w3.msgLen))
  ∧ (cur = none → ws = [])
  ∧ List.Pairwise wOrd ws
  ∧ List.Chain' wStep ws
  ∧ (∀ w1 ∈ ws, ∀ w2 ∈ ws, w1.buf < w2.buf →
      ∃ w3 ∈ ws, w3.buf = w1.buf ∧ w3.start + w3.bytes.length = w3.msgLen)

lemma SendTraceOk.of_tagged (idx : ℕ) (b : TxBuffer) (cs : List (ℕ × List ℕ))
    (hCF : ChunksFrom b.bytes_sent cs) :
    SendTraceOk idx (some b) (tagChunks idx (b.payload_size + kHeaderSize) cs) := by
  obtain ⟨hA, hPair, hChain, hHead, hLast, hEmp⟩ :=
    tagChunks_facts idx (b.payload_size + kHeaderSize) b.bytes_sent cs hCF
  refine ⟨?_, ?_, ?_, hPair, hChain, ?_⟩
  · intro w hw
    exact ⟨le_of_eq (hA w hw).1.symm, (hA w hw).2.2.1⟩
  · intro b' hb'
    cases hb'
    refine ⟨fun w hw _ => (hA w hw).2.2.2.1, fun w hw => .inl (hHead w hw), ?_⟩
    · rintro ⟨w2, hw2, hlt⟩
      have := (hA w2 hw2).1
      omega
  · intro h
    cases h
  · intro w1 h1 w2 h2 hlt
    have e1 := (hA w1 h1).1
    have e2 := (hA w2 h2).1
    omega

lemma SendTraceOk.glue_advance (idx : ℕ) (b : TxBuffer) (cur' : Option TxBuffer)
    (cs : List (ℕ × List ℕ)) (rest : List WriteRec)
    (hCF : ChunksFrom b.bytes_sent cs)
    (hend : b.bytes_sent + chunksTotal cs = b.payload_size + kHeaderSize)
    (hrest : SendTraceOk (idx + 1) cur' rest) :
    SendTraceOk idx (some b) (tagChunks idx (b.payload_size + kHeaderSize) cs ++ rest) := by
  obtain ⟨hA, hPair, hChain, hHead, hLast, hEmp⟩ :=
    tagChunks_facts idx (b.payload_size + kHeaderSize) b.bytes_sent cs hCF
  obtain ⟨rA, _, _, rE, rF, rG⟩ := hrest
  have hdone_of_empty : tagChunks idx (b.payload_size + kHeaderSize) cs = [] →
      b.done = true := by
    intro he
    have h0 := hEmp he
    simp only [TxBuffer.done]
    have : b.bytes_sent = b.payload_size + kHeaderSize := by omega
    simp [this]
  have hlast_complete : ∀ w, (tagChunks idx (b.payload_size + kHeaderSize) cs).getLast? = some w →
      w.buf = idx ∧ w.start + w.bytes.length = w.msgLen := by
    intro w hw
    obtain ⟨h1, h2, h3⟩ := hLast w hw
    exact ⟨h1, by omega⟩
  refine ⟨?_, ?_, ?_, ?_, ?_, ?_⟩
  · intro w hw
    rcases List.mem_append.mp hw with hw | hw
    · exact ⟨le_of_eq (hA w hw).1.symm, (hA w hw).2.2.1⟩
    · exact ⟨by have := (rA w hw).1; omega, (rA w hw).2⟩
  · intro b' hb'
    cases hb'
    refine ⟨?_, ?_, ?_⟩
    · intro w hw hbuf
      rcases List.mem_append.mp hw with hw | hw
      · exact (hA w hw).2.2.2.1
      · exact absurd hbuf (by have := (rA w hw).1; omega)
    · intro w hw
      by_cases hcs : tagChunks idx (b.payload_size + kHeaderSize) cs = []
      · rw [hcs, List.nil_append] at hw
        have hmem := List.mem_of_mem_head? hw
        exact .inr ⟨by have := (rA w hmem).1; omega, hdone_of_empty hcs⟩
      · obtain ⟨x, xs, hxe⟩ := List.exists_cons_of_ne_nil hcs
        rw [hxe, List.cons_append, List.head?_cons] at hw
        have hhd : (tagChunks idx (b.payload_size + kHeaderSize) cs).head? = some w := by
          rw [hxe, List.head?_cons, hw]
        exact .inl (hHead w hhd)
    · intro _
      by_cases hcs : tagChunks idx (b.payload_size + kHeaderSize) cs = []
      · exact .inl (hdone_of_empty hcs)
      · have h1 := List.getLast?_eq_getLast_of_ne_nil hcs
        obtain ⟨hb1, hb2⟩ := hlast_complete _ h1
        exact .inr ⟨_, List.mem_append_left _ (List.getLast_mem hcs), hb1, hb2⟩
  · intro h
    cases h
  · rw [List.pairwise_append]
    refine ⟨hPair, rE, ?_⟩
    intro w1 h1 w2 h2
    have e1 := (hA w1 h1).1
    have e2 := (rA w2 h2).1
    exact ⟨by omega, fun he => absurd he (by omega)⟩
  · refine List.Chain'.append hChain rF ?_
    intro x hx y hy
    refine ⟨fun he => absurd he ?_, fun _ => ?_⟩
    · have e1 := (hlast_complete x hx).1
      have e2 := (rA y (List.mem_of_mem_head? hy)).1
      omega
    · exact (hlast_complete x hx).2
  · intro w1 h1 w2 h2 hlt
    rcases List.mem_append.mp h1 with h1' | h1'
    · -- w1 in the tagged chunks: its buffer is idx, completed by the last chunk
      have hne : tagChunks idx (b.payload_size + kHeaderSize) cs ≠ [] :=
        List.ne_nil_of_mem h1'
      have hg := List.getLast?_eq_getLast_of_ne_nil hne
      obtain ⟨hb1, hb2⟩ := hlast_complete _ hg
      refine ⟨_, List.mem_append_left _ (List.getLast_mem hne), ?_, hb2⟩
      rw [hb1, (hA w1 h1').1]
    · rcases List.mem_append.mp h2 with h2' | h2'
      · have e1 := (rA w1 h1').1
        have e2 := (hA w2 h2').1
        omega
      · obtain ⟨w3, hw3, hb3⟩ := rG w1 h1' w2 h2' hlt
        exact ⟨w3, List.mem_append_right _ hw3, hb3⟩

lemma SendTraceOk.glue_spin (idx : ℕ) (b b' : TxBuffer)
    (cs : List (ℕ × List ℕ)) (rest : List WriteRec)
    (hCF : ChunksFrom b.bytes_sent cs)
    (hend : b'.bytes_sent = b.bytes_sent + chunksTotal cs)
    (hml : b'.payload_size = b.payload_size)
    (hnd : b'.done = false)
    (hrest : SendTraceOk idx (some b') rest) :
    SendTraceOk idx (some b) (tagChunks idx (b.payload_size + kHeaderSize) cs ++ rest) := by
  obtain ⟨hA, hPair, hChain, hHead, hLast, hEmp⟩ :=
    tagChunks_facts idx (b.payload_size + kHeaderSize) b.bytes_sent cs hCF
  obtain ⟨rA, rB, rD, rE, rF, rG⟩ := hrest
  obtain ⟨rB1, rB2, rB3⟩ := rB b' rfl
  have hnotdone : ¬ b'.done = true := by simp [hnd]
  refine ⟨?_, ?_, ?_, ?_, ?_, ?_⟩
  · intro w hw
    rcases List.mem_append.mp hw with hw | hw
    · exact ⟨le_of_eq (hA w hw).1.symm, (hA w hw).2.2.1⟩
    · exact rA w hw
  · intro b0 hb0
    cases hb0
    refine ⟨?_, ?_, ?_⟩
    · intro w hw hbuf
      rcases List.mem_append.mp hw with hw | hw
      · exact (hA w hw).2.2.2.1
      · have := rB1 w hw hbuf
        omega
    · intro w hw
      by_cases hcs : tagChunks idx (b.payload_size + kHeaderSize) cs = []
      · have h0 := hEmp hcs
        rw [hcs, List.nil_append] at hw
        rcases rB2 w hw with ⟨hb1, hb2⟩ | ⟨_, hcon⟩
        · exact .inl ⟨hb1, by omega⟩
        · exact absurd hcon hnotdone
      · obtain ⟨x, xs, hxe⟩ := List.exists_cons_of_ne_nil hcs
        rw [hxe, List.cons_append, List.head?_cons] at hw
        have hhd : (tagChunks idx (b.payload_size + kHeaderSize) cs).head? = some w := by
          rw [hxe, List.head?_cons, hw]
        exact .inl (hHead w hhd)
    · rintro ⟨w2, hw2, hlt⟩
      rcases List.mem_append.mp hw2 with hw2' | hw2'
      · have := (hA w2 hw2').1
        omega
      · rcases rB3 ⟨w2, hw2', hlt⟩ with hcon | ⟨w3, hw3, hb3⟩
        · exact absurd hcon hnotdone
        · exact .inr ⟨w3, List.mem_append_right _ hw3, hb3⟩
  · intro h
    cases h
  · rw [List.pairwise_append]
    refine ⟨hPair, rE, ?_⟩
    intro w1 h1 w2 h2
    have e1 := (hA w1 h1).1
    refine ⟨by have := (rA w2 h2).1; omega, fun he => ?_⟩
    have hb2 := (hA w1 h1).2.2.2.2
    have hs2 := rB1 w2 h2 (by omega)
    omega
  · refine List.Chain'.append hChain rF ?_
    intro x hx y hy
    obtain ⟨hx1, hx2, _⟩ := hLast x hx
    have hym := List.mem_of_mem_head? hy
    rcases rB2 y hy with ⟨hy1, hy2⟩ | ⟨_, hcon⟩
    · exact ⟨fun _ => by omega, fun hne => absurd (by omega : x.buf = y.buf) hne⟩
    · exact absurd hcon hnotdone
  · intro w1 h1 w2 h2 hlt
    rcases List.mem_append.mp h1 with h1' | h1'
    · have e1 := (hA w1 h1').1
      have hw2r : w2 ∈ rest := by
        rcases List.mem_append.mp h2 with h2' | h2'
        · have := (hA w2 h2').1
          omega
        · exact h2'
      rcases rB3 ⟨w2, hw2r, by omega⟩ with hcon | ⟨w3, hw3, hb3⟩
      · exact absurd hcon hnotdone
      · exact ⟨w3, List.mem_append_right _ hw3, by rw [e1]; exact hb3.1, hb3.2⟩
    · rcases List.mem_append.mp h2 with h2' | h2'
      · have e1 := (rA w1 h1').1
        have e2 := (hA w2 h2').1
        -- w1 in rest has buf ≥ idx, w2 tagged has buf = idx, so w1.buf < idx is impossible
        omega
      · obtain ⟨w3, hw3, hb3⟩ := rG w1 h1' w2 h2' hlt
        exact ⟨w3, List.mem_append_right _ hw3, hb3⟩

lemma sendLoop_trace (oob : ℕ → ℕ) :
    ∀ (fuel idx : ℕ) (cur : Option TxBuffer) (queue : List TxBuffer)
      (evs : List SendEv),
    SendTraceOk idx cur (sendLoop oob fuel idx cur queue evs).writes
  | 0, idx, cur, queue, evs => by
    simp [sendLoop, SendTraceOk]
  | _ + 1, idx, none, queue, evs => by
    simp [sendLoop, SendTraceOk]
  | fuel + 1, idx, some b, queue, evs => by
    have ht := trySend_chunksFrom oob b evs
    have hCF := ht.1
    have htend := ht.2.1
    have htp := ht.2.2.1
    simp only [sendLoop]
    cases hr : (TryNonblockingSend oob b evs).exits with
    | closed => exact SendTraceOk.of_tagged idx b _ hCF
    | threw e => exact SendTraceOk.of_tagged idx b _ hCF
    | starved => exact SendTraceOk.of_tagged idx b _ hCF
    | filled =>
      by_cases hd : (TryNonblockingSend oob b evs).buffer.done
      · have hend : b.bytes_sent + chunksTotal (TryNonblockingSend oob b evs).chunks
            = b.payload_size + kHeaderSize := by
          have hd2 : (TryNonblockingSend oob b evs).buffer.bytes_sent
              = (TryNonblockingSend oob b evs).buffer.payload_size + kHeaderSize := by
            simpa [TxBuffer.done] using hd
          omega
        rw [if_pos hd]
        cases queue with
        | nil =>
          exact SendTraceOk.glue_advance idx b none _ _ hCF hend
            (sendLoop_trace oob fuel (idx + 1) none [] _)
        | cons q qs =>
          exact SendTraceOk.glue_advance idx b (some q) _ _ hCF hend
            (sendLoop_trace oob fuel (idx + 1) (some q) qs _)
      · rw [if_neg hd]
        exact SendTraceOk.glue_spin idx b _ _ _ hCF htend htp
          (by simpa using hd)
          (sendLoop_trace oob fuel idx (some (TryNonblockingSend oob b evs).buffer)
            queue _)
    | blocked =>
      by_cases hd : (TryNonblockingSend oob b evs).buffer.done
      · have hend : b.bytes_sent + chunksTotal (TryNonblockingSend oob b evs).chunks
            = b.payload_size + kHeaderSize := by
          have hd2 : (TryNonblockingSend oob b evs).buffer.bytes_sent
              = (TryNonblockingSend oob b evs).buffer.payload_size + kHeaderSize := by
            simpa [TxBuffer.done] using hd
          omega
        rw [if_pos hd]
        cases queue with
        | nil =>
          exact SendTraceOk.glue_advance idx b none _ _ hCF hend
            (sendLoop_trace oob fuel (idx + 1) none [] _)
        | cons q qs =>
          exact SendTraceOk.glue_advance idx b (some q) _ _ hCF hend
            (sendLoop_trace oob fuel (idx + 1) (some q) qs _)
      · rw [if_neg hd]
        exact SendTraceOk.glue_spin idx b _ _ _ hCF htend htp
          (by simpa using hd)
          (sendLoop_trace oob fuel idx (some (TryNonblockingSend oob b evs).buffer)
            queue _)

/-- Sanity of a partially received buffer: its `data` holds exactly the bytes
received so far, and once the 4 header bytes are in, `payload_size` is their
decoded value. -/
def RxSane (b : RxBuffer) : Prop :=
  b.data.length = b.bytes_received
  ∧ (kHeaderSize ≤ b.bytes_received → b.payload_size = ntohl32 (b.data.take 4))

lemma rxSane_fresh : RxSane freshRxBuffer := by
  constructor
  · rfl
  · intro h
    simp [freshRxBuffer, kHeaderSize] at h

lemma recvFill_stream (target : ℕ) :
    ∀ (b : RxBuffer) (stream : List ℕ) (evs : List RecvEv),
    b.data.length = b.bytes_received →
    ∃ k,
      (recvFill target b stream evs).buffer.data = b.data ++ stream.take k
      ∧ (recvFill target b stream evs).buffer.bytes_received = b.bytes_received + k
      ∧ (recvFill target b stream evs).buffer.payload_size = b.payload_size
      ∧ (recvFill target b stream evs).stream = stream.drop k
      ∧ b.bytes_received + k ≤ max b.bytes_received target
      ∧ ((recvFill target b stream evs).exits = .filled →
          target ≤ b.bytes_received + k)
      ∧ k ≤ stream.length
      ∧ ((recvFill target b stream evs).exits = .filled
          ∨ b.bytes_received + k < target)
  | b, stream, [] => by
    intro hlen
    simp only [recvFill]
    split <;> rename_i hle
    · exact ⟨0, by simp, by simp, rfl, by simp, by omega, (fun _ => by omega),
        by omega, .inl rfl⟩
    · exact ⟨0, by simp, by simp, rfl, by simp, by omega, (fun hc => by cases hc),
        by omega, .inr (by omega)⟩
  | b, stream, ev :: evs => by
    intro hlen
    simp only [recvFill]
    split <;> rename_i hle
    · exact ⟨0, by simp, by simp, rfl, by simp, by omega, (fun _ => by omega),
        by omega, .inl rfl⟩
    · match ev with
      | .wouldBlock =>
        exact ⟨0, by simp, by simp, rfl, by simp, by omega, (fun hc => by cases hc),
          by omega, .inr (by omega)⟩
      | .fail e =>
        exact ⟨0, by simp, by simp, rfl, by simp, by omega, (fun hc => by cases hc),
          by omega, .inr (by omega)⟩
      | .avail n =>
        simp only []
        split <;> rename_i hzero
        · exact ⟨0, by simp, by simp, rfl, by simp, by omega, (fun hc => by cases hc),
            by omega, .inr (by omega)⟩
        · have hdle : (stream.take (min n (target - b.bytes_received))).length
              ≤ target - b.bytes_received :=
            le_trans (List.length_take_le _ _)
              (min_le_right n (target - b.bytes_received))
          have htk : b.data.take b.bytes_received = b.data := by
            rw [← hlen]
            exact List.take_length b.data
          have hlen2 : (b.data.take b.bytes_received
              ++ stream.take (min n (target - b.bytes_received))).length
              = b.bytes_received
                + (stream.take (min n (target - b.bytes_received))).length := by
            rw [List.length_append, htk, hlen]
          obtain ⟨k2, h1, h2, h3, h4, h5, h6, h7, h8⟩ :=
            recvFill_stream target
              { b with
                  data := b.data.take b.bytes_received
                    ++ stream.take (min n (target - b.bytes_received)),
                  bytes_received := b.bytes_received
                    + (stream.take (min n (target - b.bytes_received))).length }
              (stream.drop (stream.take (min n (target - b.bytes_received))).length)
              evs hlen2
          simp only [] at h1 h2 h3 h4 h5 h6 h7 h8
          have hdlen : (stream.take (min n (target - b.bytes_received))).length
              = min n (target - b.bytes_received) ⊓ stream.length := by
            rw [List.length_take]
          have hldrop : (stream.drop
              ((stream.take (min n (target - b.bytes_received))).length)).length
              = stream.length
                - (stream.take (min n (target - b.bytes_received))).length := by
            rw [List.length_drop]
          have hlt : (stream.take (min n (target - b.bytes_received))).length
              ≤ stream.length := by
            rw [List.length_take]
            omega
          refine ⟨(stream.take (min n (target - b.bytes_received))).length + k2,
            ?_, ?_, ?_, ?_, ?_, ?_, ?_, ?_⟩
          · have htt : stream.take
                ((stream.take (min n (target - b.bytes_received))).length)
                = stream.take (min n (target - b.bytes_received)) := by
              rw [List.length_take, ← List.take_take, List.take_length]
            rw [h1, htk, List.append_assoc, List.take_add, htt]
          · rw [h2]
            omega
          · rw [h3]
          · rw [h4, List.drop_drop]
          · omega
          · intro hf
            have := h6 hf
            omega
          · omega
          · rcases h8 with h8 | h8
            · exact .inl h8
            · exact .inr (by omega)

lemma tryReceive_frame (b : RxBuffer) (stream : List ℕ) (evs : List RecvEv)
    (hs : RxSane b) :
    ∃ k,
      (TryNonblockingReceive b stream evs).buffer.data = b.data ++ stream.take k
      ∧ (TryNonblockingReceive b stream evs).buffer.bytes_received
          = b.bytes_received + k
      ∧ (TryNonblockingReceive b stream evs).stream = stream.drop k
      ∧ RxSane (TryNonblockingReceive b stream evs).buffer := by
  obtain ⟨k1, g1, g2, g3, g4, g5, g6, g7, g8⟩ :=
    recvFill_stream kHeaderSize b stream evs hs.1
  have hK : kHeaderSize = 4 := rfl
  simp only [TryNonblockingReceive]
  cases hx : (recvFill kHeaderSize b stream evs).exits with
  | filled =>
    have hk1 : kHeaderSize ≤ b.bytes_received + k1 := g6 hx
    have hlen1 : (recvFill kHeaderSize b stream evs).buffer.data.length
        = b.bytes_received + k1 := by
      rw [g1, List.length_append, hs.1, List.length_take]
      omega
    have hlen1' :
        ({ (recvFill kHeaderSize b stream evs).buffer with
            payload_size := ntohl32 ((recvFill kHeaderSize b stream evs).buffer.data.take 4) }
          : RxBuffer).data.length
        = ({ (recvFill kHeaderSize b stream evs).buffer with
            payload_size := ntohl32 ((recvFill kHeaderSize b stream evs).buffer.data.take 4) }
          : RxBuffer).bytes_received := by
      simp only []
      rw [hlen1, g2]
    obtain ⟨k2, f1, f2, f3, f4, f5, f6, f7, f8⟩ :=
      recvFill_stream
        (({ (recvFill kHeaderSize b stream evs).buffer with
            payload_size := ntohl32 ((recvFill kHeaderSize b stream evs).buffer.data.take 4) }
          : RxBuffer).payload_size + kHeaderSize)
        ({ (recvFill kHeaderSize b stream evs).buffer with
            payload_size := ntohl32 ((recvFill kHeaderSize b stream evs).buffer.data.take 4) })
        ((recvFill kHeaderSize b stream evs).stream)
        ((recvFill kHeaderSize b stream evs).evs)
        hlen1'
    simp only [] at f1 f2 f3 f4 f5 f6 f7 f8
    rw [g4] at f1 f2 f3 f4 f6 f7 f8
    rw [g4]
    have htake4 :
        (((recvFill kHeaderSize b stream evs).buffer.data ++ (stream.drop k1).take k2).take 4)
        = (recvFill kHeaderSize b stream evs).buffer.data.take 4 := by
      apply List.take_append_of_le_length
      rw [hlen1]
      omega
    have hdroplen : (stream.drop k1).length = stream.length - k1 := by
      rw [List.length_drop]
    refine ⟨k1 + k2, ?_, ?_, ?_, ?_, ?_⟩
    · rw [f1, g1, List.append_assoc, List.take_add]
    · rw [f2, g2]
      omega
    · rw [f4, List.drop_drop]
    · rw [f1, List.length_append, hlen1, List.length_take, f2, g2]
      omega
    · intro _
      rw [f3, f1, htake4]
  | closed =>
    simp only []
    refine ⟨k1, g1, g2, g4, ?_, ?_⟩
    · rw [g1, List.length_append, hs.1, List.length_take, g2]
      omega
    · intro h4
      rw [g2] at h4
      rcases g8 with g8 | g8
      · rw [g8] at hx
        cases hx
      · exact absurd h4 (by omega)
  | blocked =>
    simp only []
    refine ⟨k1, g1, g2, g4, ?_, ?_⟩
    · rw [g1, List.length_append, hs.1, List.length_take, g2]
      omega
    · intro h4
      rw [g2] at h4
      rcases g8 with g8 | g8
      · rw [g8] at hx
        cases hx
      · exact absurd h4 (by omega)
  | starved =>
    simp only []
    refine ⟨k1, g1, g2, g4, ?_, ?_⟩
    · rw [g1, List.length_append, hs.1, List.length_take, g2]
      omega
    · intro h4
      rw [g2] at h4
      rcases g8 with g8 | g8
      · rw [g8] at hx
        cases hx
      · exact absurd h4 (by omega)
  | threw e =>
    simp only []
    refine ⟨k1, g1, g2, g4, ?_, ?_⟩
    · rw [g1, List.length_append, hs.1, List.length_take, g2]
      omega
    · intro h4
      rw [g2] at h4
      rcases g8 with g8 | g8
      · rw [g8] at hx
        cases hx
      · exact absurd h4 (by omega)

lemma recvLoop_stream :
    ∀ (fuel : ℕ) (inbound : List RxBuffer) (current : RxBuffer)
      (stream : List ℕ) (evs : List RecvEv),
    RxSane current →
    ∃ newly k,
      (recvLoop fuel inbound current stream evs).inbound = inbound ++ newly
      ∧ ((newly.map RxBuffer.data).flatten
          ++ (recvLoop fuel inbound current stream evs).current.data
          = current.data ++ stream.take k)
      ∧ (recvLoop fuel inbound current stream evs).stream = stream.drop k
      ∧ RxSane (recvLoop fuel inbound current stream evs).current
      ∧ (∀ nb ∈ newly, nb.done = true
          ∧ nb.data.length = nb.payload_size + kHeaderSize
          ∧ nb.payload_size = ntohl32 (nb.data.take 4))
  | 0, inbound, current, stream, evs => by
    intro hs
    exact ⟨[], 0, by simp [recvLoop], by simp [recvLoop], by simp [recvLoop],
      by simpa [recvLoop] using hs, by simp⟩
  | fuel + 1, inbound, current, stream, evs => by
    intro hs
    obtain ⟨k1, t1, t2, t3, t4⟩ := tryReceive_frame current stream evs hs
    simp only [recvLoop]
    cases hx : (TryNonblockingReceive current stream evs).exits with
    | closed =>
      exact ⟨[], k1, by simp, by simp [t1], t3, t4, by simp⟩
    | threw e =>
      exact ⟨[], k1, by simp, by simp [t1], t3, t4, by simp⟩
    | starved =>
      exact ⟨[], k1, by simp, by simp [t1], t3, t4, by simp⟩
    | filled =>
      by_cases hd : (TryNonblockingReceive current stream evs).buffer.done
      · rw [if_pos hd]
        have hdone2 : (TryNonblockingReceive current stream evs).buffer.bytes_received
            = (TryNonblockingReceive current stream evs).buffer.payload_size
              + kHeaderSize := by
          simpa [RxBuffer.done] using hd
        have hfacts : (TryNonblockingReceive current stream evs).buffer.done = true
            ∧ (TryNonblockingReceive current stream evs).buffer.data.length
              = (TryNonblockingReceive current stream evs).buffer.payload_size
                + kHeaderSize
            ∧ (TryNonblockingReceive current stream evs).buffer.payload_size
              = ntohl32 ((TryNonblockingReceive current stream evs).buffer.data.take 4) := by
          refine ⟨hd, ?_, ?_⟩
          · rw [t4.1, hdone2]
          · exact t4.2 (by omega)
        obtain ⟨newly2, k2, r1, r2, r3, r4, r5⟩ :=
          recvLoop_stream fuel
            (inbound ++ [(TryNonblockingReceive current stream evs).buffer])
            freshRxBuffer
            ((TryNonblockingReceive current stream evs).stream)
            ((TryNonblockingReceive current stream evs).evs)
            rxSane_fresh
        rw [t3] at r1 r2 r3 r4
        rw [t3]
        refine ⟨(TryNonblockingReceive current stream evs).buffer :: newly2, k1 + k2,
          ?_, ?_, ?_, r4, ?_⟩
        · rw [r1, List.append_assoc]
          rfl
        · simp only [List.map_cons, List.flatten_cons, List.append_assoc]
          rw [r2, t1, List.append_assoc, List.take_add]
          simp [freshRxBuffer]
        · rw [r3, List.drop_drop]
        · intro nb hnb
          rcases List.mem_cons.mp hnb with hnb | hnb
          · subst hnb
            exact hfacts
          · exact r5 nb hnb
      · rw [if_neg hd]
        exact ⟨[], k1, by simp, by simp [t1], t3, t4, by simp⟩
    | blocked =>
      by_cases hd : (TryNonblockingReceive current stream evs).buffer.done
      · rw [if_pos hd]
        have hdone2 : (TryNonblockingReceive current stream evs).buffer.bytes_received
            = (TryNonblockingReceive current stream evs).buffer.payload_size
              + kHeaderSize := by
          simpa [RxBuffer.done] using hd
        have hfacts : (TryNonblockingReceive current stream evs).buffer.done = true
            ∧ (TryNonblockingReceive current stream evs).buffer.data.length
              = (TryNonblockingReceive current stream evs).buffer.payload_size
                + kHeaderSize
            ∧ (TryNonblockingReceive current stream evs).buffer.payload_size
              = ntohl32 ((TryNonblockingReceive current stream evs).buffer.data.take 4) := by
          refine ⟨hd, ?_, ?_⟩
          · rw [t4.1, hdone2]
          · exact t4.2 (by omega)
        obtain ⟨newly2, k2, r1, r2, r3, r4, r5⟩ :=
          recvLoop_stream fuel
            (inbound ++ [(TryNonblockingReceive current stream evs).buffer])
            freshRxBuffer
            ((TryNonblockingReceive current stream evs).stream)
            ((TryNonblockingReceive current stream evs).evs)
            rxSane_fresh
        rw [t3] at r1 r2 r3 r4
        rw [t3]
        refine ⟨(TryNonblockingReceive current stream evs).buffer :: newly2, k1 + k2,
          ?_, ?_, ?_, r4, ?_⟩
        · rw [r1, List.append_assoc]
          rfl
        · simp only [List.map_cons, List.flatten_cons, List.append_assoc]
          rw [r2, t1, List.append_assoc, List.take_add]
          simp [freshRxBuffer]
        · rw [r3, List.drop_drop]
        · intro nb hnb
          rcases List.mem_cons.mp hnb with hnb | hnb
          · subst hnb
            exact hfacts
          · exact r5 nb hnb
      · rw [if_neg hd]
        exact ⟨[], k1, by simp, by simp [t1], t3, t4, by simp⟩

lemma processIo_writes (oob : ℕ → ℕ) (fuel : ℕ) (st : TransportState)
    (sevs : List SendEv) (revs : List RecvEv) (stream : List ℕ) :
    (ProcessIo oob fuel st sevs revs stream).writes
      = (sendLoop oob fuel 0
          (popFront st.current_outgoing st.outbound_buffers).1
          (popFront st.current_outgoing st.outbound_buffers).2 sevs).writes := by
  simp only [ProcessIo]
  cases hs : (sendLoop oob fuel 0
      (popFront st.current_outgoing st.outbound_buffers).1
      (popFront st.current_outgoing st.outbound_buffers).2 sevs).exits with
  | closed => rfl
  | threw e => rfl
  | starved => rfl
  | passed =>
    cases hr : (recvLoop fuel st.inbound_buffers
        (currentOrFresh st.current_incoming) stream revs).exits <;> rfl

lemma processIo_inbound (oob : ℕ → ℕ) (fuel : ℕ) (st : TransportState)
    (sevs : List SendEv) (revs : List RecvEv) (stream : List ℕ) :
    (ProcessIo oob fuel st sevs revs stream).state.inbound_buffers
        = st.inbound_buffers
    ∨ (ProcessIo oob fuel st sevs revs stream).state.inbound_buffers
        = (recvLoop fuel st.inbound_buffers
            (currentOrFresh st.current_incoming) stream revs).inbound := by
  simp only [ProcessIo]
  cases hs : (sendLoop oob fuel 0
      (popFront st.current_outgoing st.outbound_buffers).1
      (popFront st.current_outgoing st.outbound_buffers).2 sevs).exits with
  | closed => exact .inl rfl
  | threw e => exact .inl rfl
  | starved => exact .inl rfl
  | passed =>
    cases hr : (recvLoop fuel st.inbound_buffers
        (currentOrFresh st.current_incoming) stream revs).exits <;> exact .inr rfl

/-- C6: the transport moves datagrams in order and without duplication.
`Send`/`SendBuffer` enqueue at the back of the outbound deque, and in any
`ProcessIO` run started with no partially sent message the socket-write trace
is grouped by buffer in enqueue order: every write is nonempty, writes never
go backwards within a buffer (no byte re-sent), consecutive writes to one
buffer are contiguous, a buffer is left only with its frame complete, and
whenever a later-enqueued buffer has been written at all, every
earlier-enqueued buffer that was written has been written to the end of its
frame.  On the inbound side (started with no partially received message),
the datagrams appended to the inbound queue are complete frames whose
concatenated raw bytes form a prefix of the in-order byte stream — i.e. they
are queued exactly in the order their bytes arrived. -/
theorem transport_in_order_without_duplication (oob : ℕ → ℕ) (fuel : ℕ)
    (inb0 : List RxBuffer) (queue : List TxBuffer)
    (sevs : List SendEv) (revs : List RecvEv) (stream : List ℕ) :
    (∀ (st : TransportState) (b : TxBuffer),
        (SendBuffer st b).outbound_buffers = st.outbound_buffers ++ [b])
    ∧ (∀ (st : TransportState) (data : List ℕ),
        (Send st data).outbound_buffers
          = st.outbound_buffers ++ [⟨data.length, data, 0⟩])
    ∧ (∀ w ∈ (ProcessIo oob fuel ⟨inb0, none, queue, none⟩ sevs revs stream).writes,
        w.bytes ≠ [])
    ∧ List.Pairwise wOrd
        (ProcessIo oob fuel ⟨inb0, none, queue, none⟩ sevs revs stream).writes
    ∧ List.Chain' wStep
        (ProcessIo oob fuel ⟨inb0, none, queue, none⟩ sevs revs stream).writes
    ∧ (∀ w1 ∈ (ProcessIo oob fuel ⟨inb0, none, queue, none⟩ sevs revs stream).writes,
        ∀ w2 ∈ (ProcessIo oob fuel ⟨inb0, none, queue, none⟩ sevs revs stream).writes,
        w1.buf < w2.buf →
        ∃ w3 ∈ (ProcessIo oob fuel ⟨inb0, none, queue, none⟩ sevs revs stream).writes,
          w3.buf = w1.buf ∧ w3.start + w3.bytes.length = w3.msgLen)
    ∧ (∃ newly,
        (ProcessIo oob fuel ⟨inb0, none, queue, none⟩ sevs revs
            stream).state.inbound_buffers = inb0 ++ newly
        ∧ (newly.map RxBuffer.data).flatten <+: stream
        ∧ ∀ nb ∈ newly, nb.done = true
            ∧ nb.data.length = nb.payload_size + kHeaderSize
            ∧ nb.payload_size = ntohl32 (nb.data.take 4)) := by
  have hw := processIo_writes oob fuel ⟨inb0, none, queue, none⟩ sevs revs stream
  simp only [] at hw
  obtain ⟨mA, _, _, mE, mF, mG⟩ :=
    sendLoop_trace oob fuel 0
      (popFront none queue).1 (popFront none queue).2 sevs
  refine ⟨fun st b => rfl, fun st data => rfl, ?_, ?_, ?_, ?_, ?_⟩
  · intro w hww
    rw [hw] at hww
    exact (mA w hww).2
  · rw [hw]; exact mE
  · rw [hw]; exact mF
  · intro w1 h1 w2 h2 hlt
    rw [hw] at h1 h2
    obtain ⟨w3, hw3, hb3⟩ := mG w1 h1 w2 h2 hlt
    exact ⟨w3, by rw [hw]; exact hw3, hb3⟩
  · rcases processIo_inbound oob fuel ⟨inb0, none, queue, none⟩ sevs revs stream with
      hib | hib
    · exact ⟨[], by simpa using hib, by simp, by simp⟩
    · obtain ⟨newly, k, r1, r2, r3, r4, r5⟩ :=
        recvLoop_stream fuel inb0 (currentOrFresh none) stream revs rxSane_fresh
      refine ⟨newly, ?_, ?_, r5⟩
      · rw [hib]
        exact r1
      · have hpref : (newly.map RxBuffer.data).flatten <+: stream.take k := by
          refine ⟨(recvLoop fuel inb0 (currentOrFresh none) stream revs).current.data, ?_⟩
          simpa [freshRxBuffer] using r2
        exact hpref.trans (List.take_prefix k stream)

end Net


/-! ## The sequencer core (spec-modelled)

The deterministic sequencing engine of §4.2 is absent from the repository
sources — only the placeholder client API (`target_api.h`) and the critic
exist — so the grant arbitration is modelled from the specification text. -/

namespace Sequencer

open Algorithm

/-- Modelled from the spec: the per-message data the §4.2 grant arbitration
consults about a pending delivery. -/
structure PendingMsg where
  publisher : ClientId
  publish_seq : SeqNum
  receive_seq : SeqNum
deriving DecidableEq, Repr

/-- Modelled from the spec: server-side session state (§3) — subscriptions
and the byte channel are irrelevant to grant arbitration. -/
structure Session where
  id : ClientId
  min_send_seq : SeqNum
  min_recv_seq : SeqNum
  pending_delivery : List PendingMsg
  pending_grant : Option SeqNum
deriving DecidableEq, Repr

/-- Modelled from the spec: `G`, the minimum `min_send_seq` over all live
sessions; `none` when no session is live. -/
def globalFrontier : List Session → Option SeqNum
  | [] => none
  | s :: rest => some (rest.foldl (fun a u => min a u.min_send_seq) s.min_send_seq)

/-- Modelled from the spec (§4.2 grant arbitration): for a session `s` whose
`pending_grant` is `T`, dispatch every message of `s.pending_delivery` with
`receive_seq ≤ G` in queue order; once none remains, issue
`AdvanceGrant (min T G)`, set `min_recv_seq := min T G` and clear
`pending_grant` iff the grant equals `T`.  Returns
`(dispatched messages, granted value, updated session)`. -/
def evaluateGrant (sessions : List Session) (s : Session) (T : SeqNum) :
    Option (List PendingMsg × SeqNum × Session) :=
  match globalFrontier sessions with
  | none => none
  | some G =>
      let dispatched := s.pending_delivery.filter fun m => m.receive_seq ≤ G
      let remaining := s.pending_delivery.filter fun m => ¬ m.receive_seq ≤ G
      let granted := min T G
      some (dispatched, granted,
        { s with pending_delivery := remaining,
                 min_recv_seq := granted,
                 pending_grant := if granted = T then none else some T })

lemma foldl_min_le (xs : List Session) :
    ∀ (a : SeqNum),
      (xs.foldl (fun a u => min a u.min_send_seq) a ≤ a)
      ∧ ∀ u ∈ xs, xs.foldl (fun a u => min a u.min_send_seq) a ≤ u.min_send_seq := by
  induction xs with
  | nil => intro a; simp
  | cons x xs ih =>
    intro a
    obtain ⟨h1, h2⟩ := ih (min a x.min_send_seq)
    refine ⟨le_trans h1 (min_le_left _ _), ?_⟩
    intro u hu
    rcases List.mem_cons.mp hu with hu | hu
    · subst hu
      exact le_trans h1 (min_le_right _ _)
    · exact h2 u hu

lemma globalFrontier_le (sessions : List Session) (G : SeqNum)
    (h : globalFrontier sessions = some G) :
    ∀ u ∈ sessions, G ≤ u.min_send_seq := by
  cases sessions with
  | nil => cases h
  | cons s rest =>
    simp only [globalFrontier, Option.some.injEq] at h
    intro u hu
    obtain ⟨h1, h2⟩ := foldl_min_le rest s.min_send_seq
    rcases List.mem_cons.mp hu with hu | hu
    · subst hu
      rw [← h]
      exact h1
    · rw [← h]
      exact h2 u hu

/-- C4 (spec-modelled): grant safety.  When the sequencer's grant arbitration
issues `AdvanceGrant granted` to session `s` (with `pending_grant = T`), the
granted value is `min T G` for `G` the minimum `min_send_seq` over all live
sessions, every live session `u` satisfies `granted ≤ u.min_send_seq`, every
message of `s.pending_delivery` with `receive_seq ≤ granted` is in the batch
dispatched before the grant, and no message still pending for `s` has
`receive_seq ≤ granted`; `min_recv_seq` becomes the granted value and
`pending_grant` is cleared exactly when the grant equals the request. -/
theorem grant_safety (sessions : List Session) (s : Session) (T : SeqNum)
    (hmem : s ∈ sessions) (hpg : s.pending_grant = some T)
    (dispatched : List PendingMsg) (granted : SeqNum) (s2 : Session)
    (h : evaluateGrant sessions s T = some (dispatched, granted, s2)) :
    (∀ u ∈ sessions, granted ≤ u.min_send_seq)
    ∧ (∀ m ∈ s.pending_delivery, m.receive_seq ≤ granted → m ∈ dispatched)
    ∧ (∀ m ∈ s2.pending_delivery, granted < m.receive_seq)
    ∧ ∃ G, globalFrontier sessions = some G
        ∧ granted = min T G
        ∧ s2.min_recv_seq = granted
        ∧ (s2.pending_grant = none ↔ granted = T) := by
  rcases hg : globalFrontier sessions with _ | G
  · rw [evaluateGrant, hg] at h
    cases h
  · rw [evaluateGrant, hg] at h
    simp only [Option.some.injEq, Prod.mk.injEq] at h
    obtain ⟨hdis, hgr, hs2⟩ := h
    have hGle := globalFrontier_le sessions G hg
    refine ⟨?_, ?_, ?_, G, rfl, hgr.symm, ?_, ?_⟩
    · intro u hu
      rw [← hgr]
      exact le_trans (min_le_right _ _) (hGle u hu)
    · intro m hm hmle
      rw [← hdis]
      rw [List.mem_filter]
      refine ⟨hm, ?_⟩
      have : m.receive_seq ≤ G := le_trans hmle (by rw [← hgr]; exact min_le_right _ _)
      simpa using this
    · intro m hm
      rw [← hs2] at hm
      simp only [List.mem_filter] at hm
      have h2 := hm.2
      simp at h2
      calc granted ≤ G := by rw [← hgr]; exact min_le_right _ _
        _ < m.receive_seq := h2
    · rw [← hs2]
      exact hgr
    · rw [← hs2]
      simp only []
      constructor
      · intro hnone
        by_cases hq : T ⊓ G = T
        · rw [← hgr]
          exact hq
        · rw [if_neg hq] at hnone
          cases hnone
      · intro hq
        have hq2 : T ⊓ G = T := by rw [hgr]; exact hq
        rw [if_pos hq2]

/-- C4 witness: two live sessions; session 1 requested an advance to `4`
while session 2 has only cleared to `3`, so the arbitration dispatches the
one causally complete delivery and issues a partial grant of `3`. -/
theorem grant_safety_witness :
    (⟨1, 5, 0, [⟨2, 1, 2⟩, ⟨2, 3, 6⟩], some 4⟩ : Session)
        ∈ [(⟨1, 5, 0, [⟨2, 1, 2⟩, ⟨2, 3, 6⟩], some 4⟩ : Session),
           ⟨2, 3, 0, [], none⟩]
    ∧ ((∀ u ∈ [(⟨1, 5, 0, [⟨2, 1, 2⟩, ⟨2, 3, 6⟩], some 4⟩ : Session),
           ⟨2, 3, 0, [], none⟩], (3 : SeqNum) ≤ u.min_send_seq)
       ∧ ∃ G, globalFrontier
            [(⟨1, 5, 0, [⟨2, 1, 2⟩, ⟨2, 3, 6⟩], some 4⟩ : Session),
             ⟨2, 3, 0, [], none⟩] = some G
          ∧ (3 : SeqNum) = min 4 G) := by
  have h := grant_safety
    [(⟨1, 5, 0, [⟨2, 1, 2⟩, ⟨2, 3, 6⟩], some 4⟩ : Session), ⟨2, 3, 0, [], none⟩]
    ⟨1, 5, 0, [⟨2, 1, 2⟩, ⟨2, 3, 6⟩], some 4⟩ 4
    (by decide) (by decide)
    [⟨2, 1, 2⟩] 3 ⟨1, 5, 3, [⟨2, 3, 6⟩], some 4⟩
    (by decide)
  refine ⟨by decide, h.1, ?_⟩
  obtain ⟨G, hG, hgr, _, _⟩ := h.2.2.2
  exact ⟨G, hG, hgr⟩

end Sequencer

end Blocktopus

